import Mathlib

/-!
# SBF-Api — inventory transaction reconciliation engine, shallow embedding

This file embeds the transaction service of the SBF-Api repository
(`app/modules/transactions/services.py`) in Lean 4 and proves/refutes the
frozen claims about it.

Modelling conventions:
* Python `int` is `Int` (unbounded); dates are modelled as `Int` ordinals,
  only their ordering matters to the code under study.
* A SQLAlchemy session/storage is modelled as an explicit `DB` record holding
  the product, provider and transaction tables as lists.
* Python exceptions become an `Except ServiceError` result.  Where the code
  raises one Python exception class from two different sites with payloads of
  different shapes (`ItensNotFound`), the two sites get two constructors
  carrying the structured payload whose `str()` the code would pass.
* `sorted(payload, key=lambda v: v.product_id)` is a stable sort by
  `product_id`; `List.insertionSort` with `≤` on the key is also stable, and
  any two stable sorts by the same key agree, so it models Python's sort.
-/

namespace SBF

/-- Line item of a transaction create request
(`TransactionProductsData` schema: a product id and a quantity). -/
structure TransactionProductsData where
  product_id : Int
  quantity : Int
deriving DecidableEq, Repr

abbrev TPD := TransactionProductsData

/-- Product row (`app/modules/products`): only the fields the transaction
service reads or writes (`id`, `name`, `inventory`); `size`, `weight` and the
audit timestamps are never touched by this engine. -/
structure Product where
  id : Int
  name : String
  inventory : Int
deriving DecidableEq, Repr

/-- Provider row: the service only existence-checks it and reads `name`. -/
structure Provider where
  id : Int
  name : String
deriving DecidableEq, Repr

/-- `TransactionTypeEnum`. -/
inductive TransactionTypeEnum where
  | incoming
  | outgoing
deriving DecidableEq, Repr

/-- `TransactionProduct` line-item row persisted with a transaction. -/
structure TransactionProduct where
  quantity : Int
  product_id : Int
deriving DecidableEq, Repr

/-- Persisted transaction row together with its line items
(the eager-loaded `products_transaction` relationship). -/
structure Transaction where
  id : Int
  ttype : TransactionTypeEnum
  provider_id : Option Int
  description : String
  tdate : Int
  created_by : Int
  products_transaction : List TransactionProduct
deriving DecidableEq, Repr

/-- The storage visible to the service: product, provider and transaction
tables, plus the id the next inserted transaction will receive. -/
structure DB where
  products : List Product
  providers : List Provider
  transactions : List Transaction
  next_id : Int
deriving DecidableEq, Repr

/-- Python exception outcomes of the service.  `ItensNotFound` is raised from
two sites with different payload shapes and gets one constructor per site;
`NoneTypeAttributeError` models the Python `AttributeError` raised when an
attribute is read off `None`. -/
inductive ServiceError where
  | ProductsNotFound (msg : String)
  | InvalidStockQuantity (ids : List Int)
  | NotEnoughStockQuantity (ids : List Int)
  | ProviderNotFound (name : String)
  | ItensNotFoundIds (ids : List Int)
  | ItensNotFoundMsg (msg : String)
  | InvalidPage (page : Int)
  | InvalidPageItemsNumber
  | InvalidRangeTime
  | NoneTypeAttributeError
deriving DecidableEq, Repr

/-! ## Line-item normalizer (`_sort_by_id_check_and_sum_duplicates`) -/

/-- The comparison `sorted(payload, key=lambda v: v.product_id)` sorts by. -/
def pidLe (a b : TPD) : Prop := a.product_id ≤ b.product_id

instance : DecidableRel pidLe := fun a b => by
  unfold pidLe; infer_instance

instance : IsTotal TPD pidLe := ⟨fun a b => Int.le_total a.product_id b.product_id⟩

instance : IsTrans TPD pidLe := ⟨fun _ _ _ h h' => Int.le_trans h h'⟩

/-- The loop of `_sort_by_id_check_and_sum_duplicates` over the sorted
payload.  `alreadyAdded` is the `already_added` id list; `checkedRev` is
`checked_payload` in reverse, so `checked_payload[-1]` is its head.
`checked_payload[-1].quantity += value.quantity` updates that head.  The
branch taken with an empty `checked_payload` would be a Python `IndexError`;
it is unreachable because `already_added` and `checked_payload` always have
the same length. -/
def sumDupGo (alreadyAdded : List Int) (checkedRev : List TPD) :
    List TPD → List TPD
  | [] => checkedRev.reverse
  | v :: rest =>
    if v.product_id ∈ alreadyAdded then
      match checkedRev with
      | [] => sumDupGo alreadyAdded [] rest
      | c :: cs =>
          sumDupGo alreadyAdded
            ({ c with quantity := c.quantity + v.quantity } :: cs) rest
    else
      sumDupGo (alreadyAdded ++ [v.product_id]) (v :: checkedRev) rest

/-- `_sort_by_id_check_and_sum_duplicates`: stable-sort the payload by
`product_id`, then walk it merging duplicate ids into the last placed entry.
This is the value-level reading (the quantities the returned list holds after
the in-place `+=`s); the object-level, mutation-observing reading is
`sortByIdMutStores` below. -/
def sortByIdCheckAndSumDuplicates (payload : List TPD) : List TPD :=
  sumDupGo [] [] (List.insertionSort pidLe payload)

/-- Total requested quantity of one product across a payload. -/
def totalQty (pid : Int) (payload : List TPD) : Int :=
  ((payload.filter (fun v => v.product_id = pid)).map (·.quantity)).sum

/-- Structural description of the merging pass on a sorted list: `a` is the
entry currently being accumulated (the head of `checked_payload` in the
loop); adjacent entries with the same id fold into it. -/
def mergeInto (a : TPD) : List TPD → List TPD
  | [] => [a]
  | b :: rest =>
    if b.product_id = a.product_id then
      mergeInto { a with quantity := a.quantity + b.quantity } rest
    else
      a :: mergeInto b rest

/-- What the merging pass does to a whole sorted list. -/
def mergeAdjacent : List TPD → List TPD
  | [] => []
  | a :: rest => mergeInto a rest

/-! ## Object-level (mutation-observing) model of the normalizer

Python objects are mutable: `checked_payload[-1].quantity += value.quantity`
updates the very object the caller's `transaction.products` list holds.  To
observe this, the payload is modelled as a store of objects (object
identity = position) and the loop walks a list of references into it. -/

instance : Inhabited TPD := ⟨⟨0, 0⟩⟩

/-- Product id of the object at position `j` of the store. -/
def pidAt (s0 : List TPD) (j : Nat) : Int := (s0.getD j default).product_id

/-- Quantity of the object at position `j` of the store. -/
def qtyAt (s0 : List TPD) (j : Nat) : Int := (s0.getD j default).quantity

/-- The key `sorted(payload, key=lambda v: v.product_id)` compares by, read
off the object store. -/
def refLe (s0 : List TPD) (i j : Nat) : Prop :=
  pidAt s0 i ≤ pidAt s0 j

instance (s0 : List TPD) : DecidableRel (refLe s0) := fun i j => by
  unfold refLe; infer_instance

/-- `sorted(payload, key=...)` at the object level: the payload's object
references `0, 1, …` in stable sorted order (insertion sort with `≤` on the
key is stable, like Python's sort). -/
def sortedRefs (s0 : List TPD) : List Nat :=
  List.insertionSort (refLe s0) (List.range s0.length)

/-- The loop of `_sort_by_id_check_and_sum_duplicates` at the object level:
`store` is the current state of the payload objects, `checkedRev` holds the
references in `checked_payload` (reversed, so `checked_payload[-1]` is its
head), and `+=` becomes a `List.set` on the referenced position.  Returns
the final store together with the references `checked_payload` returns. -/
def sumDupMutGo (store : List TPD) (alreadyAdded : List Int)
    (checkedRev : List Nat) : List Nat → List TPD × List Nat
  | [] => (store, checkedRev.reverse)
  | i :: rest =>
    let v := store.getD i default
    if v.product_id ∈ alreadyAdded then
      match checkedRev with
      | [] => sumDupMutGo store alreadyAdded [] rest
      | c :: cs =>
        let cv := store.getD c default
        sumDupMutGo (store.set c { cv with quantity := cv.quantity + v.quantity })
          alreadyAdded (c :: cs) rest
    else
      sumDupMutGo store (alreadyAdded ++ [v.product_id]) (i :: checkedRev) rest

/-- `_sort_by_id_check_and_sum_duplicates` observed at the object level:
the final state of the caller's objects and the references returned. -/
def sortByIdCheckAndSumDuplicatesMut (store : List TPD) : List TPD × List Nat :=
  sumDupMutGo store [] [] (sortedRefs store)

/-- Position `i` holds the first occurrence of its product id in the
payload. -/
def firstOccurrence (s0 : List TPD) (i : Nat) : Prop :=
  ∀ j < i, pidAt s0 j ≠ pidAt s0 i

/-- Lexicographic order on references: by product id, ties by position.  A
stable sort by the id alone produces exactly this order on the distinct
positions. -/
def refLex (s0 : List TPD) (i j : Nat) : Prop :=
  pidAt s0 i < pidAt s0 j ∨ (pidAt s0 i = pidAt s0 j ∧ i < j)

/-- Sum of the stored quantities of the referenced objects having product
id `p`. -/
def sumRefs (s0 : List TPD) (p : Int) (refs : List Nat) : Int :=
  ((refs.filter (fun j => pidAt s0 j = p)).map (qtyAt s0)).sum

/-! ## Ordering used by `order_by(Product.id)` / `order_by(Transaction.id)` -/

def prodLe (p q : Product) : Prop := p.id ≤ q.id

instance : DecidableRel prodLe := fun p q => by
  unfold prodLe; infer_instance

instance : IsTotal Product prodLe := ⟨fun p q => Int.le_total p.id q.id⟩

instance : IsTrans Product prodLe := ⟨fun _ _ _ h h' => Int.le_trans h h'⟩

def txLe (s t : Transaction) : Prop := s.id ≤ t.id

instance : DecidableRel txLe := fun s t => by
  unfold txLe; infer_instance

instance : IsTotal Transaction txLe := ⟨fun s t => Int.le_total s.id t.id⟩

instance : IsTrans Transaction txLe := ⟨fun _ _ _ h h' => Int.le_trans h h'⟩

def sortProductsById (l : List Product) : List Product :=
  List.insertionSort prodLe l

def sortTransactionsById (l : List Transaction) : List Transaction :=
  List.insertionSort txLe l

/-! ## Case-insensitive substring matching
(`func.lower(col).contains(sub.lower(), autoescape=True)` is a literal,
case-insensitive substring test). -/

/-- Whether `needle` occurs as a contiguous sublist of the second list. -/
def containsSub (needle : List Char) : List Char → Bool
  | [] => needle.isEmpty
  | c :: rest => needle.isPrefixOf (c :: rest) || containsSub needle rest

def lowerContains (hay needle : String) : Bool :=
  containsSub needle.toLower.toList hay.toLower.toList

/-! ## Transaction query engine
(`_make_transaction_query_with_filters`, `fetch_all`,
`fetch_all_with_pagination`) -/

/-- A date-typed query parameter as the Python code can receive it:
an actual `datetime.date`, `None` (the default of `fetch_all` and
`fetch_all_with_pagination`), or `''` (the default of
`_make_transaction_query_with_filters` itself).  The code dispatches on
`type(x) == date` and on `x == ''`. -/
inductive DateParam where
  | dateVal (d : Int)
  | nullVal
  | emptyVal
deriving DecidableEq, Repr

/-- The `transaction_type` parameter: `''` or a `TransactionTypeEnum`. -/
inductive TypeParam where
  | emptyVal
  | typeVal (t : TransactionTypeEnum)
deriving DecidableEq, Repr

/-- The provider-name filter: `join(Transaction.provider)` (inner join, so a
transaction with no provider drops out) then a case-insensitive substring
match on the provider's name. -/
def providerNameMatches (db : DB) (provider_name : String) (t : Transaction) : Bool :=
  db.providers.any (fun pr =>
    t.provider_id = some pr.id && lowerContains pr.name provider_name)

/-- The product-name filter: first collect the ids of transactions having at
least one line item whose product name matches, then restrict to that id
set (`Transaction.id.in_(ids)`). -/
def productNameMatches (db : DB) (product_name : String) (t : Transaction) : Bool :=
  ((db.transactions.filter (fun u =>
      u.products_transaction.any (fun tp =>
        db.products.any (fun p =>
          p.id = tp.product_id && lowerContains p.name product_name)))).map
    (·.id)).contains t.id

/-- `_make_transaction_query_with_filters`: builds the row set of the query.
The date `if/elif` chain only applies a single-bound filter when the other
parameter is literally `''`; a `None` on the other side leaves the dates
unfiltered.  Raising happens while the query is built, before any row is
read. -/
def makeTransactionQueryWithFilters (db : DB)
    (product_name provider_name description : String)
    (transaction_type : TypeParam) (start_date finish_date : DateParam) :
    Except ServiceError (List Transaction) :=
  let q0 := db.transactions
  let dated : Except ServiceError (List Transaction) :=
    match start_date, finish_date with
    | .dateVal s, .dateVal f =>
        if s > f then Except.error ServiceError.InvalidRangeTime
        else Except.ok (q0.filter (fun t => decide (s ≤ t.tdate) && decide (t.tdate ≤ f)))
    | .dateVal s, .emptyVal =>
        Except.ok (q0.filter (fun t => decide (s ≤ t.tdate)))
    | .emptyVal, .dateVal f =>
        Except.ok (q0.filter (fun t => decide (t.tdate ≤ f)))
    | _, _ => Except.ok q0
  match dated with
  | .error e => Except.error e
  | .ok q1 =>
    let q2 := if provider_name ≠ "" then q1.filter (providerNameMatches db provider_name) else q1
    let q3 := if description ≠ "" then
        q2.filter (fun t => lowerContains t.description description)
      else q2
    let q4 := match transaction_type with
      | .emptyVal => q3
      | .typeVal tt => q3.filter (fun t => decide (t.ttype = tt))
    let q5 := if product_name ≠ "" then q4.filter (productNameMatches db product_name) else q4
    Except.ok q5

/-- `fetch_all`: run the filtered query ordered by transaction id; an empty
result raises `ItensNotFound("No transactions found")`. -/
def fetchAll (db : DB) (product_name provider_name description : String)
    (transaction_type : TypeParam) (start_date finish_date : DateParam) :
    Except ServiceError (List Transaction) :=
  match makeTransactionQueryWithFilters db product_name provider_name
      description transaction_type start_date finish_date with
  | .error e => Except.error e
  | .ok q =>
    let transactions := sortTransactionsById q
    if transactions.length = 0 then
      Except.error (ServiceError.ItensNotFoundMsg "No transactions found")
    else
      Except.ok transactions

/-- `apply_pagination` of the external `sqlalchemy_filters` collaborator:
slices the ordered rows to the requested page and reports
`num_pages = ceil(total/page_size)` and `total_results`. -/
def applyPagination (rows : List Transaction) (page per_page : Int) :
    List Transaction × Int × Int :=
  let total : Int := rows.length
  let num_pages : Int := (total + per_page - 1) / per_page
  ((rows.drop ((page - 1) * per_page).toNat).take per_page.toNat, num_pages, total)

/-- Modelled from the spec: `make_pagination_metadata`
(`app/utils/pagination.py`, not under src/) packages current page, total
pages, per-page and total items for caller-side link construction. -/
structure PaginationMetadata where
  current_page : Int
  total_pages : Int
  per_page : Int
  total_items : Int
deriving DecidableEq, Repr

structure TransactionsResponse where
  pagination_metadata : PaginationMetadata
  records : List Transaction
deriving DecidableEq, Repr

/-- `fetch_all_with_pagination`: guards on `page` and `per_page`, builds the
filtered query, paginates, rejects a page beyond the total only when
`num_pages > 0`, then rejects an empty page. -/
def fetchAllWithPagination (db : DB) (page : Int) (per_page : Int)
    (product_name provider_name description : String)
    (transaction_type : TypeParam) (start_date finish_date : DateParam) :
    Except ServiceError TransactionsResponse :=
  if page ≤ 0 then Except.error (ServiceError.InvalidPage page)
  else if per_page ≤ 0 then Except.error ServiceError.InvalidPageItemsNumber
  else
    match makeTransactionQueryWithFilters db product_name provider_name
        description transaction_type start_date finish_date with
    | .error e => Except.error e
    | .ok q =>
      let sortedRows := sortTransactionsById q
      let (transactions, num_pages, total) := applyPagination sortedRows page per_page
      if page > num_pages ∧ num_pages > 0 then
        Except.error (ServiceError.InvalidPage page)
      else if transactions.length = 0 then
        Except.error (ServiceError.ItensNotFoundMsg "No transactions found")
      else
        Except.ok {
          pagination_metadata := {
            current_page := page, total_pages := num_pages,
            per_page := per_page, total_items := total },
          records := transactions }

/-! ## Create-path validation helpers -/

/-- `_check_provider_existence`.  When the provider id resolves to nothing
the code executes `raise ProviderNotFound(provider.name)` with
`provider = None`; evaluating `provider.name` raises `AttributeError`
(`'NoneType' object has no attribute 'name'`) before `ProviderNotFound` is
ever constructed, so the observable failure is the `AttributeError`. -/
def checkProviderExistence (db : DB) (provider_id : Option Int) :
    Except ServiceError Unit :=
  match provider_id with
  | none => Except.ok ()
  | some pid =>
    match db.providers.find? (fun pr => pr.id = pid) with
    | none => Except.error ServiceError.NoneTypeAttributeError
    | some _ => Except.ok ()

/-- `_check_if_products_payload_is_greater_than_zero`: collects every id,
collects the ids with non-positive quantity, raises with the full violator
list if any, otherwise returns all ids. -/
def checkIfProductsPayloadIsGreaterThanZero (payload : List TPD) :
    Except ServiceError (List Int) :=
  let products_ids := payload.map (·.product_id)
  let invalid_stock_ids := (payload.filter (fun v => v.quantity ≤ 0)).map (·.product_id)
  if invalid_stock_ids.length > 0 then
    Except.error (ServiceError.InvalidStockQuantity invalid_stock_ids)
  else
    Except.ok products_ids

/-- `_check_if_stock_has_enough_outgoing_quantity`: positional zip of the
resolved products with the merged payload; every pair with requested
quantity strictly above inventory is collected. -/
def checkIfStockHasEnoughOutgoingQuantity (products_found : List Product)
    (products_payload : List TPD) : Except ServiceError Unit :=
  let invalid_stock_ids :=
    ((products_found.zip products_payload).filter
      (fun pp => pp.2.quantity > pp.1.inventory)).map (fun pp => pp.1.id)
  if invalid_stock_ids.length > 0 then
    Except.error (ServiceError.NotEnoughStockQuantity invalid_stock_ids)
  else
    Except.ok ()

/-- The removal loop of `_get_products_from_database`: for each resolved id,
`payload_products_id.remove(id)` deletes its first occurrence (`List.erase`;
the `in` guard only protects against `ValueError`, and erasing an absent
value is already a no-op). -/
def removeFoundIds (ids foundIds : List Int) : List Int :=
  foundIds.foldl (fun acc i => acc.erase i) ids

/-- `_get_products_from_database`: bulk read of the products whose id is in
the requested list, ordered by id; a size mismatch raises `ItensNotFound`
with the requested ids that did not resolve, in their original order. -/
def getProductsFromDatabase (db : DB) (payload_products_id : List Int) :
    Except ServiceError (List Product) :=
  let products_found :=
    sortProductsById (db.products.filter (fun p => p.id ∈ payload_products_id))
  if products_found.length = payload_products_id.length then
    Except.ok products_found
  else
    Except.error (ServiceError.ItensNotFoundIds
      (removeFoundIds payload_products_id (products_found.map (·.id))))

/-! ## Transaction writer (`_update_products_inventory*`, `create`) -/

/-- `bulk_update_mappings(Product, dicts)`: each mapping updates the row with
its primary key. -/
def bulkUpdateById (table updated : List Product) : List Product :=
  table.map (fun p =>
    match updated.find? (fun u => u.id = p.id) with
    | some u => u
    | none => p)

/-- `_update_products_inventory`: increment each resolved product's
inventory by its positionally paired payload quantity, then write the batch
back by primary key. -/
def updateProductsInventory (db : DB) (products_found : List Product)
    (products_payload : List TPD) : DB :=
  let dict_products := (products_found.zip products_payload).map
    (fun pp => { pp.1 with inventory := pp.1.inventory + pp.2.quantity })
  { db with products := bulkUpdateById db.products dict_products }

/-- `_update_products_inventory_outgoing`: same with decrement. -/
def updateProductsInventoryOutgoing (db : DB) (products_found : List Product)
    (products_payload : List TPD) : DB :=
  let dict_products := (products_found.zip products_payload).map
    (fun pp => { pp.1 with inventory := pp.1.inventory - pp.2.quantity })
  { db with products := bulkUpdateById db.products dict_products }

/-- A create request (`IncomingTransactionCreate` / `OutgoingTransactionCreate`). -/
structure TransactionCreate where
  ttype : TransactionTypeEnum
  provider_id : Option Int
  description : String
  tdate : Int
  products : List TPD
deriving DecidableEq, Repr

/-- `create`: the full validated create of an incoming or outgoing
transaction, returning the end state of the storage and the inserted row.
The outgoing branch excludes `provider_id` from the inserted row.
`Transaction.insert` (models.py, not under src/) appends the row; its
commit-boundary behaviour is modelled separately by
`createObservableState`. -/
def create (db : DB) (userId : Int) (t : TransactionCreate) :
    Except ServiceError (DB × Transaction) :=
  if t.products.length = 0 then
    Except.error (ServiceError.ProductsNotFound "Empty transaction products")
  else match t.ttype with
  | .incoming =>
    match checkProviderExistence db t.provider_id with
    | .error e => Except.error e
    | .ok _ =>
      let checked_products := sortByIdCheckAndSumDuplicates t.products
      match checkIfProductsPayloadIsGreaterThanZero checked_products with
      | .error e => Except.error e
      | .ok products_ids =>
        match getProductsFromDatabase db products_ids with
        | .error e => Except.error e
        | .ok products_to_update =>
          let tx : Transaction := {
            id := db.next_id, ttype := t.ttype, provider_id := t.provider_id,
            description := t.description, tdate := t.tdate, created_by := userId,
            products_transaction := checked_products.map
              (fun pr => { quantity := pr.quantity, product_id := pr.product_id }) }
          let db1 := { db with transactions := db.transactions ++ [tx],
                               next_id := db.next_id + 1 }
          let db2 := updateProductsInventory db1 products_to_update checked_products
          Except.ok (db2, tx)
  | .outgoing =>
    let checked_products := sortByIdCheckAndSumDuplicates t.products
    match checkIfProductsPayloadIsGreaterThanZero checked_products with
    | .error e => Except.error e
    | .ok products_ids =>
      match getProductsFromDatabase db products_ids with
      | .error e => Except.error e
      | .ok products_to_update =>
        match checkIfStockHasEnoughOutgoingQuantity products_to_update checked_products with
        | .error e => Except.error e
        | .ok _ =>
          let tx : Transaction := {
            id := db.next_id, ttype := t.ttype, provider_id := none,
            description := t.description, tdate := t.tdate, created_by := userId,
            products_transaction := checked_products.map
              (fun pr => { quantity := pr.quantity, product_id := pr.product_id }) }
          let db1 := { db with transactions := db.transactions ++ [tx],
                               next_id := db.next_id + 1 }
          let db2 := updateProductsInventoryOutgoing db1 products_to_update checked_products
          Except.ok (db2, tx)

/-- Where a create attempt can fail after validation. -/
inductive FailPoint where
  | insertTx
  | inventoryUpdate
deriving DecidableEq, Repr

/-- Modelled from the spec: `Transaction.insert` (models.py, not under src/)
commits the transaction row on its own, and `_update_products_inventory*`
then issues a second, independent `db.commit()` — spec §9: the observed
design "commits the transaction record before adjusting inventory in a
separate step".  `createObservableState` is the storage state a reader
observes after a create attempt that fails at `fail` (`none` = no failure):
a failure during the insert leaves nothing committed, a failure during the
inventory update leaves the already-committed transaction row without any
inventory adjustment. -/
def createObservableState (db : DB) (userId : Int) (t : TransactionCreate)
    (fail : Option FailPoint) : DB :=
  match create db userId t with
  | .error _ => db
  | .ok (db2, tx) =>
    match fail with
    | some .insertTx => db
    | some .inventoryUpdate =>
        { db with transactions := db.transactions ++ [tx],
                  next_id := db.next_id + 1 }
    | none => db2

/-! ## Concrete fixtures used by the evaluation theorems and witnesses -/

deriving instance DecidableEq for Except

/-- Catalogue with a single product: id 1, inventory 10. -/
def dbOneProduct : DB :=
  { products := [{ id := 1, name := "A", inventory := 10 }],
    providers := [], transactions := [], next_id := 1 }

/-- Storage with no rows at all. -/
def dbEmpty : DB :=
  { products := [], providers := [], transactions := [], next_id := 1 }

/-- A stored transaction dated 5. -/
def txEarly : Transaction :=
  { id := 1, ttype := .incoming, provider_id := none, description := "x",
    tdate := 5, created_by := 7, products_transaction := [] }

/-- Storage holding only `txEarly`. -/
def dbOneTransaction : DB :=
  { products := [], providers := [], transactions := [txEarly], next_id := 2 }

/-- Incoming create request: product 1, quantity 5, no provider. -/
def incomingFive : TransactionCreate :=
  { ttype := .incoming, provider_id := none, description := "d", tdate := 5,
    products := [⟨1, 5⟩] }

/-- Incoming create request naming a provider id (99) that resolves to
nothing. -/
def incomingBadProvider : TransactionCreate :=
  { ttype := .incoming, provider_id := some 99, description := "d", tdate := 5,
    products := [⟨1, 5⟩] }

/-- The transaction row `create dbOneProduct 7 incomingFive` inserts. -/
def txAfterIncomingFive : Transaction :=
  { id := 1, ttype := .incoming, provider_id := none, description := "d",
    tdate := 5, created_by := 7,
    products_transaction := [{ quantity := 5, product_id := 1 }] }

/-- The storage state after `create dbOneProduct 7 incomingFive`. -/
def dbAfterIncomingFive : DB :=
  { products := [{ id := 1, name := "A", inventory := 15 }],
    providers := [], transactions := [txAfterIncomingFive], next_id := 2 }

/-- Outgoing create request: product 1, quantity 10 — exactly the current
inventory of product 1 in `dbOneProduct`. -/
def outgoingTen : TransactionCreate :=
  { ttype := .outgoing, provider_id := none, description := "d", tdate := 5,
    products := [⟨1, 10⟩] }

theorem sumDupGo_eq_mergeInto (l : List TPD) :
    ∀ (a : TPD) (cs : List TPD),
      (∀ v ∈ l, a.product_id ≤ v.product_id) →
      (∀ c ∈ cs, c.product_id < a.product_id) →
      l.Pairwise pidLe →
      sumDupGo (((a :: cs).map (·.product_id)).reverse) (a :: cs) l =
        cs.reverse ++ mergeInto a l := by
  induction l with
  | nil => intro a cs _ _ _; simp [sumDupGo, mergeInto]
  | cons v rest ih =>
    intro a cs hge hlt hsorted
    have hav : a.product_id ≤ v.product_id := hge v (by simp)
    by_cases hpid : v.product_id = a.product_id
    · have hmem : v.product_id ∈ ((a :: cs).map (·.product_id)).reverse := by
        simp [hpid]
      rw [sumDupGo, if_pos hmem]
      have hrest : ∀ u ∈ rest, a.product_id ≤ u.product_id := by
        intro u hu
        have := (List.pairwise_cons.mp hsorted).1 u hu
        exact hpid ▸ this
      have hrw := ih { a with quantity := a.quantity + v.quantity } cs
        hrest hlt (List.pairwise_cons.mp hsorted).2
      simpa [mergeInto, hpid] using hrw
    · have hlt' : a.product_id < v.product_id := lt_of_le_of_ne hav (fun h => hpid h.symm)
      have hmem : v.product_id ∉ ((a :: cs).map (·.product_id)).reverse := by
        simp only [List.mem_reverse, List.mem_map, List.mem_cons]
        rintro ⟨c, hc | hc, hcp⟩
        · exact hpid (hc ▸ hcp).symm
        · exact absurd (hcp ▸ hlt c hc) (not_lt.mpr (le_of_lt hlt'))
      rw [sumDupGo, if_neg hmem]
      have hrest : ∀ u ∈ rest, v.product_id ≤ u.product_id :=
        fun u hu => (List.pairwise_cons.mp hsorted).1 u hu
      have hlt'' : ∀ c ∈ a :: cs, c.product_id < v.product_id := by
        intro c hc
        rcases List.mem_cons.mp hc with h | h
        · exact h ▸ hlt'
        · exact lt_trans (hlt c h) hlt'
      have hrw := ih v (a :: cs) hrest hlt'' (List.pairwise_cons.mp hsorted).2
      have hAA : ((a :: cs).map (·.product_id)).reverse ++ [v.product_id] =
          ((v :: a :: cs).map (·.product_id)).reverse := by
        simp
      rw [hAA, hrw]
      simp [mergeInto, hpid]

theorem sumDupGo_nil_eq_mergeAdjacent (l : List TPD) (hsorted : l.Pairwise pidLe) :
    sumDupGo [] [] l = mergeAdjacent l := by
  cases l with
  | nil => rfl
  | cons v rest =>
    rw [sumDupGo, if_neg (by simp)]
    have hrw := sumDupGo_eq_mergeInto rest v []
      (fun u hu => (List.pairwise_cons.mp hsorted).1 u hu)
      (by simp) (List.pairwise_cons.mp hsorted).2
    simpa [mergeAdjacent] using hrw

/-- The normalizer is the merging pass applied to the stably sorted payload. -/
theorem sortByIdCheckAndSumDuplicates_eq (payload : List TPD) :
    sortByIdCheckAndSumDuplicates payload =
      mergeAdjacent (List.insertionSort pidLe payload) :=
  sumDupGo_nil_eq_mergeAdjacent _ (List.sorted_insertionSort pidLe payload)

theorem mergeInto_sorted_strict (l : List TPD) :
    ∀ a : TPD, (∀ b ∈ l, a.product_id ≤ b.product_id) → l.Pairwise pidLe →
      (mergeInto a l).Pairwise (fun x y => x.product_id < y.product_id) ∧
      ∀ x ∈ mergeInto a l, a.product_id ≤ x.product_id := by
  induction l with
  | nil => intro a _ _; simp [mergeInto]
  | cons b rest ih =>
    intro a hge hsorted
    have hab : a.product_id ≤ b.product_id := hge b (by simp)
    by_cases hpid : b.product_id = a.product_id
    · have hrest : ∀ u ∈ rest, a.product_id ≤ u.product_id := by
        intro u hu
        exact hpid ▸ (List.pairwise_cons.mp hsorted).1 u hu
      have := ih { a with quantity := a.quantity + b.quantity }
        hrest (List.pairwise_cons.mp hsorted).2
      simpa [mergeInto, hpid] using this
    · have hlt : a.product_id < b.product_id := lt_of_le_of_ne hab (fun h => hpid h.symm)
      have hrest : ∀ u ∈ rest, b.product_id ≤ u.product_id :=
        fun u hu => (List.pairwise_cons.mp hsorted).1 u hu
      obtain ⟨hpw, hmem⟩ := ih b hrest (List.pairwise_cons.mp hsorted).2
      rw [mergeInto, if_neg hpid]
      constructor
      · exact List.pairwise_cons.mpr
          ⟨fun x hx => lt_of_lt_of_le hlt (hmem x hx), hpw⟩
      · intro x hx
        rcases List.mem_cons.mp hx with h | h
        · exact h ▸ le_refl _
        · exact le_trans (le_of_lt hlt) (hmem x h)

theorem totalQty_cons (v : TPD) (l : List TPD) (p : Int) :
    totalQty p (v :: l) =
      (if v.product_id = p then v.quantity else 0) + totalQty p l := by
  by_cases h : v.product_id = p <;> simp [totalQty, List.filter_cons, h]

theorem totalQty_eq_zero (l : List TPD) (p : Int)
    (h : ∀ u ∈ l, ¬ u.product_id = p) : totalQty p l = 0 := by
  have : l.filter (fun v => v.product_id = p) = [] := by
    rw [List.filter_eq_nil_iff]
    intro u hu
    simpa using h u hu
  simp [totalQty, this]

theorem mergeInto_quantity (l : List TPD) :
    ∀ a : TPD, (∀ b ∈ l, a.product_id ≤ b.product_id) → l.Pairwise pidLe →
      (∀ x ∈ mergeInto a l, x.quantity = totalQty x.product_id (a :: l)) ∧
      (∀ p : Int, p ∈ (mergeInto a l).map (·.product_id) ↔
        p ∈ ((a :: l).map (·.product_id))) := by
  induction l with
  | nil =>
    intro a _ _
    constructor
    · intro x hx
      rw [List.mem_singleton.mp hx]
      simp [totalQty_cons, totalQty]
    · intro p; simp [mergeInto]
  | cons b rest ih =>
    intro a hge hsorted
    have hab : a.product_id ≤ b.product_id := hge b (by simp)
    by_cases hpid : b.product_id = a.product_id
    · have hrest : ∀ u ∈ rest, a.product_id ≤ u.product_id := by
        intro u hu
        exact hpid ▸ (List.pairwise_cons.mp hsorted).1 u hu
      obtain ⟨ihq, ihm⟩ := ih { a with quantity := a.quantity + b.quantity }
        hrest (List.pairwise_cons.mp hsorted).2
      have heq : mergeInto a (b :: rest) =
          mergeInto { a with quantity := a.quantity + b.quantity } rest := by
        rw [mergeInto, if_pos hpid]
      have htq : ∀ p : Int,
          totalQty p ({ a with quantity := a.quantity + b.quantity } :: rest) =
          totalQty p (a :: b :: rest) := by
        intro p
        rw [totalQty_cons, totalQty_cons, totalQty_cons]
        by_cases hp : a.product_id = p
        · simp only [hpid, hp, if_pos]
          omega
        · simp [hpid, hp]
      constructor
      · intro x hx
        rw [heq] at hx
        rw [ihq x hx, htq]
      · intro p
        rw [heq, ihm p]
        simp only [List.map_cons, List.mem_cons, hpid]
        tauto
    · have hlt : a.product_id < b.product_id := lt_of_le_of_ne hab (fun h => hpid h.symm)
      have hrest : ∀ u ∈ rest, b.product_id ≤ u.product_id :=
        fun u hu => (List.pairwise_cons.mp hsorted).1 u hu
      obtain ⟨ihq, ihm⟩ := ih b hrest (List.pairwise_cons.mp hsorted).2
      rw [mergeInto, if_neg hpid]
      constructor
      · intro x hx
        rcases List.mem_cons.mp hx with h | h
        · subst h
          have hzero : totalQty x.product_id (b :: rest) = 0 := by
            apply totalQty_eq_zero
            intro u hu
            rcases List.mem_cons.mp hu with h' | h'
            · exact fun he => absurd (h' ▸ he) (ne_of_gt hlt)
            · intro he
              exact absurd (he ▸ hrest u h') (not_le.mpr hlt)
          rw [totalQty_cons, hzero, if_pos rfl, Int.add_zero]
        · have hx' := ihq x h
          have hxge : b.product_id ≤ x.product_id :=
            (mergeInto_sorted_strict rest b hrest
              (List.pairwise_cons.mp hsorted).2).2 x h
          have hna : ¬ a.product_id = x.product_id := fun he =>
            absurd (he ▸ (lt_of_lt_of_le hlt hxge)) (lt_irrefl _)
          have hcons := totalQty_cons a (b :: rest) x.product_id
          rw [if_neg hna] at hcons
          rw [hx']
          omega
      · intro p
        simp only [List.map_cons, List.mem_cons]
        have := ihm p
        simp only [List.map_cons, List.mem_cons] at this
        rw [this]

theorem mergeInto_of_strict (l : List TPD) :
    ∀ a : TPD, (∀ b ∈ l, a.product_id < b.product_id) →
      l.Pairwise (fun x y => x.product_id < y.product_id) →
      mergeInto a l = a :: l := by
  induction l with
  | nil => intro a _ _; rfl
  | cons b rest ih =>
    intro a hgt hpw
    have hab : a.product_id < b.product_id := hgt b (by simp)
    rw [mergeInto, if_neg (ne_of_gt hab)]
    rw [ih b (fun u hu => (List.pairwise_cons.mp hpw).1 u hu)
      (List.pairwise_cons.mp hpw).2]

theorem totalQty_perm {l l' : List TPD} (h : l.Perm l') (p : Int) :
    totalQty p l = totalQty p l' := by
  unfold totalQty
  exact List.Perm.sum_eq (List.Perm.map _ (List.Perm.filter _ h))

theorem normalizer_sorted_strict (payload : List TPD) :
    (sortByIdCheckAndSumDuplicates payload).Pairwise
      (fun x y => x.product_id < y.product_id) := by
  rw [sortByIdCheckAndSumDuplicates_eq]
  have hs := List.sorted_insertionSort pidLe payload
  cases hH : List.insertionSort pidLe payload with
  | nil => simp [mergeAdjacent]
  | cons a rest =>
    rw [hH] at hs
    exact (mergeInto_sorted_strict rest a
      (fun b hb => (List.pairwise_cons.mp hs).1 b hb)
      (List.pairwise_cons.mp hs).2).1

theorem normalizer_quantity (payload : List TPD) :
    ∀ x ∈ sortByIdCheckAndSumDuplicates payload,
      x.quantity = totalQty x.product_id payload := by
  rw [sortByIdCheckAndSumDuplicates_eq]
  have hs := List.sorted_insertionSort pidLe payload
  have hperm := List.perm_insertionSort pidLe payload
  cases hH : List.insertionSort pidLe payload with
  | nil => simp [mergeAdjacent]
  | cons a rest =>
    rw [hH] at hs hperm
    intro x hx
    have hq := (mergeInto_quantity rest a
      (fun b hb => (List.pairwise_cons.mp hs).1 b hb)
      (List.pairwise_cons.mp hs).2).1 x (by simpa [mergeAdjacent] using hx)
    rw [hq]
    exact totalQty_perm hperm _

theorem normalizer_ids (payload : List TPD) (p : Int) :
    p ∈ (sortByIdCheckAndSumDuplicates payload).map (·.product_id) ↔
      p ∈ payload.map (·.product_id) := by
  rw [sortByIdCheckAndSumDuplicates_eq]
  have hs := List.sorted_insertionSort pidLe payload
  have hperm := List.perm_insertionSort pidLe payload
  cases hH : List.insertionSort pidLe payload with
  | nil =>
    rw [hH] at hperm
    rw [hperm.symm.eq_nil]
    simp [mergeAdjacent]
  | cons a rest =>
    rw [hH] at hs hperm
    have hm := (mergeInto_quantity rest a
      (fun b hb => (List.pairwise_cons.mp hs).1 b hb)
      (List.pairwise_cons.mp hs).2).2 p
    rw [show mergeAdjacent (a :: rest) = mergeInto a rest from rfl, hm]
    exact (hperm.map (·.product_id)).mem_iff

theorem normalizer_fixes_strict (l : List TPD)
    (h : l.Pairwise (fun x y => x.product_id < y.product_id)) :
    sortByIdCheckAndSumDuplicates l = l := by
  have hsorted : l.Pairwise pidLe := h.imp (fun hxy => le_of_lt hxy)
  rw [sortByIdCheckAndSumDuplicates_eq, List.Sorted.insertionSort_eq hsorted]
  cases l with
  | nil => rfl
  | cons a rest =>
    rw [show mergeAdjacent (a :: rest) = mergeInto a rest from rfl]
    exact mergeInto_of_strict rest a
      (fun b hb => (List.pairwise_cons.mp h).1 b hb)
      (List.pairwise_cons.mp h).2

/-- C3: the normalizer returns at most one entry per product id (its ids are
strictly increasing, which also gives the ascending order), each returned
quantity is the sum of all requested quantities for that product, exactly the
requested product ids appear, and `[(1,3),(1,2)]` normalizes to the same
batch as `[(1,5)]`. -/
theorem C3_normalizer_sums_duplicates_sorted (payload : List TPD) :
    (sortByIdCheckAndSumDuplicates payload).Pairwise
        (fun x y => x.product_id < y.product_id) ∧
    (∀ x ∈ sortByIdCheckAndSumDuplicates payload,
        x.quantity = totalQty x.product_id payload) ∧
    (∀ p : Int, p ∈ (sortByIdCheckAndSumDuplicates payload).map (·.product_id) ↔
        p ∈ payload.map (·.product_id)) ∧
    sortByIdCheckAndSumDuplicates [⟨1, 3⟩, ⟨1, 2⟩] =
      sortByIdCheckAndSumDuplicates [⟨1, 5⟩] :=
  ⟨normalizer_sorted_strict payload, normalizer_quantity payload,
    normalizer_ids payload, by decide⟩

/-- C7: normalization is idempotent — normalizing an already-normalized
batch yields the same batch. -/
theorem C7_normalizer_idempotent (payload : List TPD) :
    sortByIdCheckAndSumDuplicates (sortByIdCheckAndSumDuplicates payload) =
      sortByIdCheckAndSumDuplicates payload :=
  normalizer_fixes_strict _ (normalizer_sorted_strict payload)

/-- C1 (code bug, evaluated at the failing input): a create that fails
during the inventory-update step — after `Transaction.insert` has already
committed — leaves a partially applied create observable: the transaction
row is present while every inventory counter is unchanged.  This
contradicts the claim that an incomplete create leaves no partial rows
(the spec itself flags this two-commit gap as a defect in §9). -/
theorem C1_commit_gap_partial_create_observable :
    (createObservableState dbOneProduct 7 incomingFive
        (some .inventoryUpdate)).transactions =
      [{ id := 1, ttype := .incoming, provider_id := none, description := "d",
         tdate := 5, created_by := 7,
         products_transaction := [{ quantity := 5, product_id := 1 }] }] ∧
    (createObservableState dbOneProduct 7 incomingFive
        (some .inventoryUpdate)).products = dbOneProduct.products ∧
    (create dbOneProduct 7 incomingFive).isOk = true := by
  decide

/-- C4 (code bug, evaluated at the failing input): when a supplied provider
id resolves to nothing, `_check_provider_existence` executes
`raise ProviderNotFound(provider.name)` with `provider = None`, so the
attribute access raises first and the create fails with the `NoneType`
`AttributeError`, not with `ProviderNotFound`. -/
theorem C4_missing_provider_attribute_error :
    checkProviderExistence dbOneProduct (some 99) =
      Except.error ServiceError.NoneTypeAttributeError ∧
    create dbOneProduct 7 incomingBadProvider =
      Except.error ServiceError.NoneTypeAttributeError ∧
    ∀ name : String,
      ServiceError.NoneTypeAttributeError ≠ ServiceError.ProviderNotFound name :=
  ⟨by decide, by decide, fun _ h => ServiceError.noConfusion h⟩

/-- C5 (code bug, evaluated at the failing input): a `fetch_all` query with
only the start date present (the finish date left at `fetch_all`'s `None`
default) applies no date filter at all, because the builder's single-bound
branches test the absent parameter against `''`: a stored transaction dated
5 is returned although the start bound is 10. -/
theorem C5_start_only_bound_not_applied :
    fetchAll dbOneTransaction "" "" "" .emptyVal (.dateVal 10) .nullVal =
      Except.ok [txEarly] ∧
    txEarly.tdate < 10 := by
  decide

/-- C9: when the filters match zero transactions and `page ≥ 1`,
`per_page ≥ 1`, the paginated fetch fails with the no-transactions-found
error, not `InvalidPage`: with zero rows `num_pages = 0`, so the
page-exceeds-total check (guarded by `num_pages > 0`) is skipped. -/
theorem C9_zero_matches_not_found_error (db : DB) (page per_page : Int)
    (product_name provider_name description : String) (tt : TypeParam)
    (sd fd : DateParam)
    (hpage : 1 ≤ page) (hper : 1 ≤ per_page)
    (hempty : makeTransactionQueryWithFilters db product_name provider_name
      description tt sd fd = Except.ok []) :
    fetchAllWithPagination db page per_page product_name provider_name
      description tt sd fd =
      Except.error (ServiceError.ItensNotFoundMsg "No transactions found") := by
  unfold fetchAllWithPagination
  rw [if_neg (by omega), if_neg (by omega), hempty]
  have hnp : (per_page - 1) / per_page = 0 :=
    Int.ediv_eq_zero_of_lt (by omega) (by omega)
  simp [applyPagination, sortTransactionsById, hnp]

theorem checkGtZero_error_char (payload : List TPD)
    (h : ∃ v ∈ payload, v.quantity ≤ 0) :
    checkIfProductsPayloadIsGreaterThanZero payload =
      Except.error (ServiceError.InvalidStockQuantity
        ((payload.filter (fun v => v.quantity ≤ 0)).map (·.product_id))) := by
  unfold checkIfProductsPayloadIsGreaterThanZero
  obtain ⟨v, hv, hq⟩ := h
  have hmem : v ∈ payload.filter (fun v => v.quantity ≤ 0) :=
    List.mem_filter.mpr ⟨hv, by simpa using hq⟩
  have hlen : 0 < ((payload.filter (fun v => v.quantity ≤ 0)).map (·.product_id)).length :=
    List.length_pos.mpr (List.ne_nil_of_mem (List.mem_map_of_mem _ hmem))
  rw [if_pos hlen]

theorem removeFoundIds_eq_filter : ∀ (S ids : List Int), ids.Nodup →
    removeFoundIds ids S = ids.filter (fun i => decide (¬ i ∈ S)) := by
  intro S
  induction S with
  | nil => intro ids _; simp [removeFoundIds]
  | cons s S ih =>
    intro ids h
    have h1 : removeFoundIds ids (s :: S) = removeFoundIds (ids.erase s) S := rfl
    rw [h1, ih _ (h.erase s), h.erase_eq_filter s, List.filter_filter]
    apply List.filter_congr
    intro i _
    by_cases h1 : i = s <;> by_cases h2 : i ∈ S <;> simp [h1, h2]

theorem foundIds_mem (db : DB) (ids : List Int) (i : Int) :
    i ∈ (sortProductsById (db.products.filter (fun p => p.id ∈ ids))).map (·.id) ↔
      (i ∈ db.products.map (·.id) ∧ i ∈ ids) := by
  unfold sortProductsById
  rw [List.Perm.mem_iff ((List.perm_insertionSort prodLe _).map _)]
  constructor
  · intro hm
    obtain ⟨p, hp, hpi⟩ := List.mem_map.mp hm
    have hf := List.mem_filter.mp hp
    exact ⟨List.mem_map.mpr ⟨p, hf.1, hpi⟩, by rw [← hpi]; simpa using hf.2⟩
  · rintro ⟨hdb, hin⟩
    obtain ⟨p, hp, hpi⟩ := List.mem_map.mp hdb
    exact List.mem_map.mpr ⟨p, List.mem_filter.mpr ⟨hp, by simp [hpi, hin]⟩, hpi⟩

theorem foundIds_nodup (db : DB) (ids : List Int)
    (hnd : (db.products.map (·.id)).Nodup) :
    ((sortProductsById (db.products.filter (fun p => p.id ∈ ids))).map (·.id)).Nodup := by
  unfold sortProductsById
  have hperm := (List.perm_insertionSort prodLe
    (db.products.filter (fun p => p.id ∈ ids))).map (·.id)
  exact hperm.nodup_iff.mpr
    (((List.filter_sublist db.products).map (·.id)).nodup hnd)

theorem getProducts_error_char (db : DB) (ids : List Int)
    (hnd : (db.products.map (·.id)).Nodup) (hni : ids.Nodup)
    (h : ∃ i ∈ ids, ¬ i ∈ db.products.map (·.id)) :
    getProductsFromDatabase db ids =
      Except.error (ServiceError.ItensNotFoundIds
        (ids.filter (fun i => decide (¬ i ∈ db.products.map (·.id))))) := by
  unfold getProductsFromDatabase
  have hfnd : ((sortProductsById (db.products.filter
      (fun p => p.id ∈ ids))).map (·.id)).Nodup := foundIds_nodup db ids hnd
  have hsub : (sortProductsById (db.products.filter
      (fun p => p.id ∈ ids))).map (·.id) ⊆ ids :=
    fun i hi => ((foundIds_mem db ids i).mp hi).2
  have hlt : (sortProductsById (db.products.filter
      (fun p => p.id ∈ ids))).length < ids.length := by
    have hle := (hfnd.subperm hsub).length_le
    rcases lt_or_eq_of_le hle with hlt | heq
    · simpa using hlt
    · exfalso
      have hperm := (hfnd.subperm hsub).perm_of_length_le (le_of_eq heq.symm)
      obtain ⟨i, hiid, hidb⟩ := h
      exact hidb ((foundIds_mem db ids i).mp (hperm.mem_iff.mpr hiid)).1
  rw [if_neg (by omega)]
  have harg : removeFoundIds ids ((sortProductsById (db.products.filter
      (fun p => p.id ∈ ids))).map (·.id)) =
      ids.filter (fun i => decide (¬ i ∈ db.products.map (·.id))) := by
    rw [removeFoundIds_eq_filter _ _ hni]
    apply List.filter_congr
    intro i hi
    have hiff : i ∈ (sortProductsById (db.products.filter
        (fun p => p.id ∈ ids))).map (·.id) ↔ i ∈ db.products.map (·.id) := by
      rw [foundIds_mem]
      exact ⟨fun hx => hx.1, fun hx => ⟨hx, hi⟩⟩
    simp [hiff]
  rw [harg]

theorem stockCheck_error_char (found : List Product) (checked : List TPD)
    (h : ∃ pr ∈ found.zip checked, pr.1.inventory < pr.2.quantity) :
    checkIfStockHasEnoughOutgoingQuantity found checked =
      Except.error (ServiceError.NotEnoughStockQuantity
        (((found.zip checked).filter
          (fun pp => pp.2.quantity > pp.1.inventory)).map (fun pp => pp.1.id))) := by
  unfold checkIfStockHasEnoughOutgoingQuantity
  obtain ⟨pr, hpr, hq⟩ := h
  have hmem : pr ∈ (found.zip checked).filter (fun pp => pp.2.quantity > pp.1.inventory) :=
    List.mem_filter.mpr ⟨hpr, by simpa using hq⟩
  have hlen : 0 < (((found.zip checked).filter
      (fun pp => pp.2.quantity > pp.1.inventory)).map (fun pp => pp.1.id)).length :=
    List.length_pos.mpr (List.ne_nil_of_mem (List.mem_map_of_mem _ hmem))
  rw [if_pos hlen]

theorem checkGtZero_ok_inv (payload : List TPD) (ids : List Int)
    (h : checkIfProductsPayloadIsGreaterThanZero payload = Except.ok ids) :
    ids = payload.map (·.product_id) ∧ ∀ v ∈ payload, 0 < v.quantity := by
  unfold checkIfProductsPayloadIsGreaterThanZero at h
  by_cases hc : 0 < ((payload.filter (fun v => v.quantity ≤ 0)).map (·.product_id)).length
  · rw [if_pos hc] at h
    exact absurd h (by simp)
  · rw [if_neg hc] at h
    simp only [Except.ok.injEq] at h
    have hnil : payload.filter (fun v => v.quantity ≤ 0) = [] := by
      have := List.length_eq_zero.mp (by omega :
        ((payload.filter (fun v => v.quantity ≤ 0)).map (·.product_id)).length = 0)
      simpa using this
    refine ⟨h.symm, fun v hv => ?_⟩
    have := List.filter_eq_nil_iff.mp hnil v hv
    simpa using this

theorem checkGtZero_eq_ok (payload : List TPD)
    (h : ∀ v ∈ payload, 0 < v.quantity) :
    checkIfProductsPayloadIsGreaterThanZero payload =
      Except.ok (payload.map (·.product_id)) := by
  unfold checkIfProductsPayloadIsGreaterThanZero
  rw [if_neg]
  have hnil : payload.filter (fun v => v.quantity ≤ 0) = [] :=
    List.filter_eq_nil_iff.mpr (fun v hv => by simpa using not_le.mpr (h v hv))
  simp [hnil]

theorem stockCheck_ok_inv (found : List Product) (checked : List TPD)
    (h : checkIfStockHasEnoughOutgoingQuantity found checked = Except.ok ()) :
    ∀ pr ∈ found.zip checked, pr.2.quantity ≤ pr.1.inventory := by
  unfold checkIfStockHasEnoughOutgoingQuantity at h
  by_cases hc : 0 < (((found.zip checked).filter
      (fun pp => pp.2.quantity > pp.1.inventory)).map (fun pp => pp.1.id)).length
  · rw [if_pos hc] at h
    exact absurd h (by simp)
  · intro pr hpr
    have hnil : (found.zip checked).filter (fun pp => pp.2.quantity > pp.1.inventory) = [] := by
      have := List.length_eq_zero.mp (by omega :
        (((found.zip checked).filter
          (fun pp => pp.2.quantity > pp.1.inventory)).map (fun pp => pp.1.id)).length = 0)
      simpa using this
    have := List.filter_eq_nil_iff.mp hnil pr hpr
    simpa using this

theorem stockCheck_eq_ok (found : List Product) (checked : List TPD)
    (h : ∀ pr ∈ found.zip checked, pr.2.quantity ≤ pr.1.inventory) :
    checkIfStockHasEnoughOutgoingQuantity found checked = Except.ok () := by
  unfold checkIfStockHasEnoughOutgoingQuantity
  rw [if_neg]
  have hnil : (found.zip checked).filter (fun pp => pp.2.quantity > pp.1.inventory) = [] :=
    List.filter_eq_nil_iff.mpr (fun pr hpr => by simpa using not_lt.mpr (h pr hpr))
  simp [hnil]

theorem zip_pair_ids : ∀ (found : List Product) (checked : List TPD),
    found.map (·.id) = checked.map (·.product_id) →
    ∀ pr ∈ found.zip checked, pr.1.id = pr.2.product_id := by
  intro found
  induction found with
  | nil => intro checked _ pr hpr; simp at hpr
  | cons f fs ih =>
    intro checked hids pr hpr
    cases checked with
    | nil => simp at hids
    | cons c cs =>
      simp only [List.map_cons, List.cons.injEq] at hids
      rcases List.mem_cons.mp hpr with h | h
      · rw [h]; exact hids.1
      · exact ih cs hids.2 pr h

theorem find_zipUpdate (op : Int → Int → Int) :
    ∀ (found : List Product) (checked : List TPD) (pid : Int),
    found.map (·.id) = checked.map (·.product_id) →
    ((found.zip checked).map (fun pp =>
        { pp.1 with inventory := op pp.1.inventory pp.2.quantity })).find?
      (fun u => u.id = pid) =
    (found.find? (fun p => p.id = pid)).bind (fun p =>
      (checked.find? (fun c => c.product_id = pid)).map (fun c =>
        { p with inventory := op p.inventory c.quantity })) := by
  intro found
  induction found with
  | nil => intro checked pid _; simp
  | cons f fs ih =>
    intro checked pid hids
    cases checked with
    | nil => simp at hids
    | cons c cs =>
      simp only [List.map_cons, List.cons.injEq] at hids
      by_cases hp : f.id = pid
      · have hc : c.product_id = pid := hids.1 ▸ hp
        simp [List.find?_cons, hp, hc]
      · have hc : ¬ c.product_id = pid := fun h => hp (hids.1.symm ▸ h)
        simpa [List.find?_cons, hp, hc] using ih cs pid hids.2

theorem find_mem_zip : ∀ (found : List Product) (checked : List TPD)
    (pid : Int) (p : Product) (c : TPD),
    found.map (·.id) = checked.map (·.product_id) →
    found.find? (fun x => x.id = pid) = some p →
    checked.find? (fun x => x.product_id = pid) = some c →
    (p, c) ∈ found.zip checked := by
  intro found
  induction found with
  | nil => intro checked pid p c _ hf _; simp at hf
  | cons f fs ih =>
    intro checked pid p c hids hf hc
    cases checked with
    | nil => simp at hids
    | cons d ds =>
      simp only [List.map_cons, List.cons.injEq] at hids
      by_cases hp : f.id = pid
      · have hd : d.product_id = pid := hids.1 ▸ hp
        rw [List.find?_cons_of_pos _ (by simpa using hp)] at hf
        rw [List.find?_cons_of_pos _ (by simpa using hd)] at hc
        simp only [Option.some.injEq] at hf hc
        rw [← hf, ← hc]
        simp
      · have hd : ¬ d.product_id = pid := fun h => hp (hids.1.symm ▸ h)
        rw [List.find?_cons_of_neg _ (by simpa using hp)] at hf
        rw [List.find?_cons_of_neg _ (by simpa using hd)] at hc
        exact List.mem_cons.mpr (Or.inr (ih ds pid p c hids.2 hf hc))

theorem getProducts_ok_inv (db : DB) (ids : List Int) (found : List Product)
    (hnd : (db.products.map (·.id)).Nodup)
    (hstrict : ids.Pairwise (· < ·))
    (h : getProductsFromDatabase db ids = Except.ok found) :
    found.map (·.id) = ids ∧ ∀ p ∈ found, p ∈ db.products := by
  unfold getProductsFromDatabase at h
  by_cases hc : (sortProductsById (db.products.filter (fun p => p.id ∈ ids))).length = ids.length
  · rw [if_pos hc] at h
    simp only [Except.ok.injEq] at h
    subst h
    constructor
    · have hfnd := foundIds_nodup db ids hnd
      have hsub : (sortProductsById (db.products.filter
          (fun p => p.id ∈ ids))).map (·.id) ⊆ ids :=
        fun i hi => ((foundIds_mem db ids i).mp hi).2
      have hlen : ids.length ≤ ((sortProductsById (db.products.filter
          (fun p => p.id ∈ ids))).map (·.id)).length := by
        simp [hc]
      have hperm := (hfnd.subperm hsub).perm_of_length_le hlen
      have hs0 : (sortProductsById (db.products.filter
          (fun p => p.id ∈ ids))).Pairwise prodLe :=
        List.sorted_insertionSort prodLe _
      have hs1 : ((sortProductsById (db.products.filter
          (fun p => p.id ∈ ids))).map (·.id)).Pairwise (· ≤ ·) :=
        hs0.map (fun p : Product => p.id) (fun _ _ hab => hab)
      have hs2 : ids.Pairwise (· ≤ ·) := hstrict.imp (fun hab => le_of_lt hab)
      exact List.eq_of_perm_of_sorted hperm hs1 hs2
    · intro p hp
      exact List.mem_of_mem_filter
        ((List.perm_insertionSort prodLe _).mem_iff.mp hp)
  · rw [if_neg hc] at h
    exact absurd h (by simp)

theorem getProducts_eq_ok (db : DB) (ids : List Int)
    (hnd : (db.products.map (·.id)).Nodup)
    (hni : ids.Nodup)
    (hsub : ∀ i ∈ ids, i ∈ db.products.map (·.id)) :
    getProductsFromDatabase db ids =
      Except.ok (sortProductsById (db.products.filter (fun p => p.id ∈ ids))) := by
  unfold getProductsFromDatabase
  rw [if_pos]
  have hfnd := foundIds_nodup db ids hnd
  have h1 : (sortProductsById (db.products.filter
      (fun p => p.id ∈ ids))).map (·.id) ⊆ ids :=
    fun i hi => ((foundIds_mem db ids i).mp hi).2
  have h2 : ids ⊆ (sortProductsById (db.products.filter
      (fun p => p.id ∈ ids))).map (·.id) :=
    fun i hi => (foundIds_mem db ids i).mpr ⟨hsub i hi, hi⟩
  have hle1 := (hfnd.subperm h1).length_le
  have hle2 := (hni.subperm h2).length_le
  simp only [List.length_map] at hle1 hle2
  omega

theorem bulkUpdate_zip_spec (op : Int → Int → Int) (qOf : Int → Int)
    (table found : List Product) (checked : List TPD)
    (hids : found.map (·.id) = checked.map (·.product_id))
    (htab : ∀ p ∈ found, p ∈ table)
    (hnd : (table.map (·.id)).Nodup)
    (hq : ∀ c ∈ checked, c.quantity = qOf c.product_id) :
    bulkUpdateById table ((found.zip checked).map (fun pp =>
      { pp.1 with inventory := op pp.1.inventory pp.2.quantity })) =
    table.map (fun p =>
      if p.id ∈ checked.map (·.product_id) then
        { p with inventory := op p.inventory (qOf p.id) }
      else p) := by
  unfold bulkUpdateById
  apply List.map_congr_left
  intro p hp
  rw [find_zipUpdate op found checked p.id hids]
  by_cases hmem : p.id ∈ checked.map (·.product_id)
  · have hmemf : p.id ∈ found.map (·.id) := by rw [hids]; exact hmem
    have hfsome : (found.find? (fun x => x.id = p.id)).isSome := by
      rw [List.find?_isSome]
      obtain ⟨q, hq', hqid⟩ := List.mem_map.mp hmemf
      exact ⟨q, hq', by simpa using hqid⟩
    obtain ⟨q, hfq⟩ := Option.isSome_iff_exists.mp hfsome
    have hqid : q.id = p.id := by simpa using List.find?_some hfq
    have hqmem : q ∈ found := List.mem_of_find?_eq_some hfq
    have hqp : q = p := List.inj_on_of_nodup_map hnd (htab q hqmem) hp hqid
    have hcsome : (checked.find? (fun c => c.product_id = p.id)).isSome := by
      rw [List.find?_isSome]
      obtain ⟨c, hc', hcid⟩ := List.mem_map.mp hmem
      exact ⟨c, hc', by simpa using hcid⟩
    obtain ⟨c, hfc⟩ := Option.isSome_iff_exists.mp hcsome
    have hcid : c.product_id = p.id := by simpa using List.find?_some hfc
    have hcmem : c ∈ checked := List.mem_of_find?_eq_some hfc
    rw [hfq, hfc, if_pos hmem]
    have hcq : c.quantity = qOf p.id := by rw [hq c hcmem, hcid]
    simp [hqp, hcq]
  · have hfnone : found.find? (fun x => x.id = p.id) = none := by
      rw [List.find?_eq_none]
      intro x hx
      simp only [decide_eq_true_eq]
      intro hxid
      exact hmem (hids ▸ (List.mem_map.mpr ⟨x, hx, hxid⟩))
    rw [hfnone, if_neg hmem]
    rfl

theorem zip_pair_exists (found : List Product) (checked : List TPD)
    (table : List Product) (p : Product)
    (hids : found.map (·.id) = checked.map (·.product_id))
    (htab : ∀ x ∈ found, x ∈ table)
    (hnd : (table.map (·.id)).Nodup)
    (hp : p ∈ table)
    (hmem : p.id ∈ checked.map (·.product_id)) :
    ∃ c, (p, c) ∈ found.zip checked ∧ c.product_id = p.id := by
  have hmemf : p.id ∈ found.map (·.id) := by rw [hids]; exact hmem
  have hfsome : (found.find? (fun x => x.id = p.id)).isSome := by
    rw [List.find?_isSome]
    obtain ⟨q, hq', hqid⟩ := List.mem_map.mp hmemf
    exact ⟨q, hq', by simpa using hqid⟩
  obtain ⟨q, hfq⟩ := Option.isSome_iff_exists.mp hfsome
  have hqid : q.id = p.id := by simpa using List.find?_some hfq
  have hqmem : q ∈ found := List.mem_of_find?_eq_some hfq
  have hqp : q = p := List.inj_on_of_nodup_map hnd (htab q hqmem) hp hqid
  have hcsome : (checked.find? (fun c => c.product_id = p.id)).isSome := by
    rw [List.find?_isSome]
    obtain ⟨c, hc', hcid⟩ := List.mem_map.mp hmem
    exact ⟨c, hc', by simpa using hcid⟩
  obtain ⟨c, hfc⟩ := Option.isSome_iff_exists.mp hcsome
  have hcid : c.product_id = p.id := by simpa using List.find?_some hfc
  refine ⟨c, ?_, hcid⟩
  have := find_mem_zip found checked p.id q c hids hfq hfc
  rw [hqp] at this
  exact this

theorem create_ok_spec (db : DB) (u : Int) (t : TransactionCreate)
    (db' : DB) (tx : Transaction)
    (hnd : (db.products.map (·.id)).Nodup)
    (hok : create db u t = Except.ok (db', tx)) :
    db'.products = db.products.map (fun p =>
      if p.id ∈ t.products.map (·.product_id) then
        match t.ttype with
        | .incoming => { p with inventory := p.inventory + totalQty p.id t.products }
        | .outgoing => { p with inventory := p.inventory - totalQty p.id t.products }
      else p) ∧
    (t.ttype = .outgoing → ∀ p ∈ db.products,
      p.id ∈ t.products.map (·.product_id) → totalQty p.id t.products ≤ p.inventory) := by
  have hq : ∀ c ∈ sortByIdCheckAndSumDuplicates t.products,
      c.quantity = totalQty c.product_id t.products := normalizer_quantity t.products
  have hstrict : ((sortByIdCheckAndSumDuplicates t.products).map
      (·.product_id)).Pairwise (· < ·) :=
    (normalizer_sorted_strict t.products).map
      (fun v : TPD => v.product_id) (fun _ _ h => h)
  simp only [create] at hok
  by_cases h0 : t.products.length = 0
  · rw [if_pos h0] at hok
    exact absurd hok (by simp)
  rw [if_neg h0] at hok
  split at hok
  · -- incoming branch
    rename_i htt
    split at hok
    · exact absurd hok (by simp)
    rename_i u0 hcp
    split at hok
    · exact absurd hok (by simp)
    rename_i products_ids hgz
    split at hok
    · exact absurd hok (by simp)
    rename_i products_to_update hgp
    simp only [Except.ok.injEq, Prod.mk.injEq] at hok
    obtain ⟨hdb', _⟩ := hok
    obtain ⟨hgzids, _⟩ := checkGtZero_ok_inv _ _ hgz
    subst hgzids
    obtain ⟨hfids, hfmem⟩ := getProducts_ok_inv db _ _ hnd hstrict hgp
    constructor
    · rw [← hdb']
      unfold updateProductsInventory
      show bulkUpdateById db.products _ = _
      rw [bulkUpdate_zip_spec (· + ·) (fun pid => totalQty pid t.products)
        db.products _ _ hfids hfmem hnd hq]
      apply List.map_congr_left
      intro p _
      exact if_congr (normalizer_ids t.products p.id) rfl rfl
    · intro h
      rw [htt] at h
      exact absurd h (by simp)
  · -- outgoing branch
    rename_i htt
    split at hok
    · exact absurd hok (by simp)
    rename_i products_ids hgz
    split at hok
    · exact absurd hok (by simp)
    rename_i products_to_update hgp
    split at hok
    · exact absurd hok (by simp)
    rename_i u0 hsc
    simp only [Except.ok.injEq, Prod.mk.injEq] at hok
    obtain ⟨hdb', _⟩ := hok
    obtain ⟨hgzids, _⟩ := checkGtZero_ok_inv _ _ hgz
    subst hgzids
    obtain ⟨hfids, hfmem⟩ := getProducts_ok_inv db _ _ hnd hstrict hgp
    constructor
    · rw [← hdb']
      unfold updateProductsInventoryOutgoing
      show bulkUpdateById db.products _ = _
      rw [bulkUpdate_zip_spec (· - ·) (fun pid => totalQty pid t.products)
        db.products _ _ hfids hfmem hnd hq]
      apply List.map_congr_left
      intro p _
      exact if_congr (normalizer_ids t.products p.id) rfl rfl
    · intro _ p hp hmem
      have hmem' : p.id ∈ (sortByIdCheckAndSumDuplicates t.products).map
          (·.product_id) := (normalizer_ids t.products p.id).mpr hmem
      obtain ⟨c, hzip, hcid⟩ := zip_pair_exists products_to_update
        (sortByIdCheckAndSumDuplicates t.products) db.products p
        hfids hfmem hnd hp hmem'
      have hbound := stockCheck_ok_inv _ _ hsc (p, c) hzip
      have hcq : c.quantity = totalQty p.id t.products := by
        rw [hq c (List.of_mem_zip hzip).2, hcid]
      rw [← hcq]
      exact hbound

/-- C6: each batch-style validation error carries the complete offending
set: `InvalidStockQuantity` lists every merged line item with non-positive
quantity, `ItensNotFound` lists exactly the requested ids that did not
resolve in their original order, and `NotEnoughStockQuantity` lists every
paired product whose requested quantity exceeds its inventory. -/
theorem C6_batch_errors_report_all_offenders
    (payload : List TPD) (db : DB) (ids : List Int)
    (found : List Product) (checked : List TPD)
    (h1 : ∃ v ∈ payload, v.quantity ≤ 0)
    (hnd : (db.products.map (·.id)).Nodup) (hni : ids.Nodup)
    (h2 : ∃ i ∈ ids, ¬ i ∈ db.products.map (·.id))
    (h3 : ∃ pr ∈ found.zip checked, pr.1.inventory < pr.2.quantity) :
    checkIfProductsPayloadIsGreaterThanZero payload =
      Except.error (ServiceError.InvalidStockQuantity
        ((payload.filter (fun v => v.quantity ≤ 0)).map (·.product_id))) ∧
    getProductsFromDatabase db ids =
      Except.error (ServiceError.ItensNotFoundIds
        (ids.filter (fun i => decide (¬ i ∈ db.products.map (·.id))))) ∧
    checkIfStockHasEnoughOutgoingQuantity found checked =
      Except.error (ServiceError.NotEnoughStockQuantity
        (((found.zip checked).filter
          (fun pp => pp.2.quantity > pp.1.inventory)).map (fun pp => pp.1.id))) :=
  ⟨checkGtZero_error_char payload h1,
   getProducts_error_char db ids hnd hni h2,
   stockCheck_error_char found checked h3⟩

/-- C6 witness: a payload with two non-positive quantities, a lookup with a
missing id, and a stock check with two insufficient products, evaluated. -/
theorem C6_batch_errors_report_all_offenders_witness :
    checkIfProductsPayloadIsGreaterThanZero [⟨1, 0⟩, ⟨2, 3⟩, ⟨3, -1⟩] =
      Except.error (ServiceError.InvalidStockQuantity [1, 3]) ∧
    getProductsFromDatabase dbOneProduct [1, 5] =
      Except.error (ServiceError.ItensNotFoundIds [5]) ∧
    checkIfStockHasEnoughOutgoingQuantity
        [⟨1, "A", 10⟩, ⟨2, "B", 4⟩] [⟨1, 11⟩, ⟨2, 5⟩] =
      Except.error (ServiceError.NotEnoughStockQuantity [1, 2]) := by
  have h := C6_batch_errors_report_all_offenders
    [⟨1, 0⟩, ⟨2, 3⟩, ⟨3, -1⟩] dbOneProduct [1, 5]
    [⟨1, "A", 10⟩, ⟨2, "B", 4⟩] [⟨1, 11⟩, ⟨2, 5⟩]
    (by decide) (by decide) (by decide) (by decide) (by decide)
  refine ⟨?_, ?_, ?_⟩
  · rw [h.1]; decide
  · rw [h.2.1]; decide
  · rw [h.2.2]; decide

/-- C2: after a successful create, every product row of the storage equals
its prior row with the inventory adjusted by plus (incoming) or minus
(outgoing) the merged quantity of that product in the normalized batch
(`totalQty`, which C3's development shows is the merged quantity), products
outside the batch being untouched; and after an outgoing create every
affected product's resulting inventory is ≥ 0. -/
theorem C2_inventory_delta_and_nonneg (db : DB) (u : Int) (t : TransactionCreate)
    (db' : DB) (tx : Transaction)
    (hnd : (db.products.map (·.id)).Nodup)
    (hok : create db u t = Except.ok (db', tx)) :
    db'.products = db.products.map (fun p =>
      if p.id ∈ t.products.map (·.product_id) then
        match t.ttype with
        | .incoming => { p with inventory := p.inventory + totalQty p.id t.products }
        | .outgoing => { p with inventory := p.inventory - totalQty p.id t.products }
      else p) ∧
    (t.ttype = .outgoing → ∀ p ∈ db.products,
      p.id ∈ t.products.map (·.product_id) →
        0 ≤ p.inventory - totalQty p.id t.products) := by
  obtain ⟨h1, h2⟩ := create_ok_spec db u t db' tx hnd hok
  exact ⟨h1, fun ho p hp hm => by have := h2 ho p hp hm; omega⟩

/-- C2 witness: the incoming create of quantity 5 for product 1 on a
catalogue where product 1 has inventory 10, evaluated concretely. -/
theorem C2_inventory_delta_and_nonneg_witness :
    dbAfterIncomingFive.products =
      dbOneProduct.products.map (fun p =>
        if p.id ∈ incomingFive.products.map (·.product_id) then
          match incomingFive.ttype with
          | .incoming =>
            { p with inventory := p.inventory + totalQty p.id incomingFive.products }
          | .outgoing =>
            { p with inventory := p.inventory - totalQty p.id incomingFive.products }
        else p) ∧
    (incomingFive.ttype = .outgoing → ∀ p ∈ dbOneProduct.products,
      p.id ∈ incomingFive.products.map (·.product_id) →
        0 ≤ p.inventory - totalQty p.id incomingFive.products) :=
  C2_inventory_delta_and_nonneg dbOneProduct 7 incomingFive
    dbAfterIncomingFive txAfterIncomingFive (by decide) (by decide)

/-- C10: an outgoing create whose merged quantities equal exactly the
current inventories passes the strict stock check, succeeds, and drives
each affected product's inventory to exactly 0 (assuming the request is
otherwise valid: non-empty, resolvable ids, positive inventories so the
positive-quantity check passes). -/
theorem C10_outgoing_exact_quantity_zeroes_stock (db : DB) (u : Int)
    (t : TransactionCreate)
    (hnd : (db.products.map (·.id)).Nodup)
    (htt : t.ttype = TransactionTypeEnum.outgoing)
    (h0 : ¬ t.products.length = 0)
    (hres : ∀ v ∈ t.products, v.product_id ∈ db.products.map (·.id))
    (hexact : ∀ p ∈ db.products, p.id ∈ t.products.map (·.product_id) →
      totalQty p.id t.products = p.inventory)
    (hpos : ∀ p ∈ db.products, p.id ∈ t.products.map (·.product_id) →
      0 < p.inventory) :
    ∃ db' tx, create db u t = Except.ok (db', tx) ∧
      ∀ p' ∈ db'.products, p'.id ∈ t.products.map (·.product_id) →
        p'.inventory = 0 := by
  have hq := normalizer_quantity t.products
  have hstrict : ((sortByIdCheckAndSumDuplicates t.products).map
      (·.product_id)).Pairwise (· < ·) :=
    (normalizer_sorted_strict t.products).map
      (fun v : TPD => v.product_id) (fun _ _ h => h)
  have hni : ((sortByIdCheckAndSumDuplicates t.products).map
      (·.product_id)).Nodup :=
    hstrict.imp (fun h => ne_of_lt h)
  have hDbOf : ∀ i ∈ (sortByIdCheckAndSumDuplicates t.products).map (·.product_id),
      ∃ p ∈ db.products, p.id = i ∧ i ∈ t.products.map (·.product_id) := by
    intro i hi
    have hipay : i ∈ t.products.map (·.product_id) :=
      (normalizer_ids t.products i).mp hi
    obtain ⟨v, hv, hvi⟩ := List.mem_map.mp hipay
    have hresv := hres v hv
    rw [hvi] at hresv
    obtain ⟨p, hp, hpi⟩ := List.mem_map.mp hresv
    exact ⟨p, hp, hpi, hipay⟩
  have hposq : ∀ c ∈ sortByIdCheckAndSumDuplicates t.products, 0 < c.quantity := by
    intro c hc
    obtain ⟨p, hp, hpi, haff⟩ := hDbOf c.product_id (List.mem_map_of_mem _ hc)
    rw [hq c hc, ← hpi]
    rw [hexact p hp (hpi.symm ▸ haff)]
    exact hpos p hp (hpi.symm ▸ haff)
  have hgz := checkGtZero_eq_ok _ hposq
  have hsubids : ∀ i ∈ (sortByIdCheckAndSumDuplicates t.products).map (·.product_id),
      i ∈ db.products.map (·.id) := by
    intro i hi
    obtain ⟨p, hp, hpi, _⟩ := hDbOf i hi
    exact List.mem_map.mpr ⟨p, hp, hpi⟩
  have hgp := getProducts_eq_ok db _ hnd hni hsubids
  obtain ⟨hfids, hfmem⟩ := getProducts_ok_inv db _ _ hnd hstrict hgp
  have hscok : ∀ pr ∈ (sortProductsById (db.products.filter
      (fun p => p.id ∈ (sortByIdCheckAndSumDuplicates t.products).map
        (·.product_id)))).zip (sortByIdCheckAndSumDuplicates t.products),
      pr.2.quantity ≤ pr.1.inventory := by
    intro pr hpr
    have hpc := zip_pair_ids _ _ hfids pr hpr
    obtain ⟨hpf, hcc⟩ := List.of_mem_zip hpr
    have hpdb : pr.1 ∈ db.products := hfmem _ hpf
    have haff : pr.1.id ∈ t.products.map (·.product_id) := by
      rw [hpc]
      exact (normalizer_ids t.products pr.2.product_id).mp
        (List.mem_map_of_mem _ hcc)
    rw [hq pr.2 hcc, ← hpc, hexact pr.1 hpdb haff]
  have hsc := stockCheck_eq_ok _ _ hscok
  have hok : create db u t = Except.ok
      (updateProductsInventoryOutgoing
        { db with
          transactions := db.transactions ++
            [{ id := db.next_id, ttype := t.ttype, provider_id := none,
               description := t.description, tdate := t.tdate, created_by := u,
               products_transaction := (sortByIdCheckAndSumDuplicates t.products).map
                 (fun pr => { quantity := pr.quantity, product_id := pr.product_id }) }]
          next_id := db.next_id + 1 }
        (sortProductsById (db.products.filter
          (fun p => p.id ∈ (sortByIdCheckAndSumDuplicates t.products).map
            (·.product_id))))
        (sortByIdCheckAndSumDuplicates t.products),
      { id := db.next_id, ttype := t.ttype, provider_id := none,
        description := t.description, tdate := t.tdate, created_by := u,
        products_transaction := (sortByIdCheckAndSumDuplicates t.products).map
          (fun pr => { quantity := pr.quantity, product_id := pr.product_id }) }) := by
    simp only [create]
    rw [if_neg h0]
    simp only [htt, hgz, hgp, hsc]
  refine ⟨_, _, hok, ?_⟩
  obtain ⟨hprod, _⟩ := create_ok_spec db u t _ _ hnd hok
  intro p' hp' haff
  rw [hprod] at hp'
  obtain ⟨p, hp, rfl⟩ := List.mem_map.mp hp'
  by_cases hc : p.id ∈ t.products.map (·.product_id)
  · rw [if_pos hc]
    simp only [htt]
    have hx := hexact p hp hc
    show p.inventory - totalQty p.id t.products = 0
    omega
  · rw [if_neg hc] at haff
    exact absurd haff hc

/-- C10 witness: outgoing create of quantity 10 on product 1 whose
inventory is exactly 10, evaluated concretely. -/
theorem C10_outgoing_exact_quantity_zeroes_stock_witness :
    ∃ db' tx, create dbOneProduct 7 outgoingTen = Except.ok (db', tx) ∧
      ∀ p' ∈ db'.products, p'.id ∈ outgoingTen.products.map (·.product_id) →
        p'.inventory = 0 :=
  C10_outgoing_exact_quantity_zeroes_stock dbOneProduct 7 outgoingTen
    (by decide) (by decide) (by decide) (by decide) (by decide) (by decide)

theorem getD_set_self (l : List TPD) (i : Nat) (v d : TPD) (h : i < l.length) :
    (l.set i v).getD i d = v := by
  induction l generalizing i with
  | nil => simp at h
  | cons a t ih =>
    cases i with
    | zero => rfl
    | succ n => exact ih n (by simpa using h)

theorem getD_set_ne (l : List TPD) (i j : Nat) (v d : TPD) (h : ¬ i = j) :
    (l.set i v).getD j d = l.getD j d := by
  induction l generalizing i j with
  | nil => rfl
  | cons a t ih =>
    cases i with
    | zero =>
      cases j with
      | zero => exact absurd rfl h
      | succ m => rfl
    | succ n =>
      cases j with
      | zero => rfl
      | succ m => exact ih n m (fun hh => h (by rw [hh]))

theorem refLex_irrefl (s0 : List TPD) (i : Nat) : ¬ refLex s0 i i := by
  intro h
  rcases h with h | ⟨_, h⟩
  · exact lt_irrefl _ h
  · exact lt_irrefl _ h

theorem nodup_of_pairwise_refLex (s0 : List TPD) (l : List Nat)
    (h : l.Pairwise (refLex s0)) : l.Nodup := by
  refine h.imp ?_
  intro a b hab hEq
  subst hEq
  exact refLex_irrefl s0 a hab

theorem orderedInsert_refLex (s0 : List TPD) :
    ∀ (l : List Nat) (a : Nat), l.Pairwise (refLex s0) → (∀ b ∈ l, a < b) →
      (List.orderedInsert (refLe s0) a l).Pairwise (refLex s0) := by
  intro l
  induction l with
  | nil => intro a _ _; simp
  | cons b l' ih =>
    intro a hpw hlt
    have hble : ∀ x ∈ l', refLex s0 b x := (List.pairwise_cons.mp hpw).1
    by_cases hab : refLe s0 a b
    · rw [List.orderedInsert, if_pos hab]
      refine List.pairwise_cons.mpr ⟨?_, hpw⟩
      intro x hx
      have hax : a < x := hlt x hx
      have hpx : pidAt s0 a ≤ pidAt s0 x := by
        rcases List.mem_cons.mp hx with h | h
        · exact h ▸ hab
        · rcases hble x h with h' | h'
          · exact le_trans hab (le_of_lt h')
          · exact le_trans hab (le_of_eq h'.1)
      rcases lt_or_eq_of_le hpx with h' | h'
      · exact Or.inl h'
      · exact Or.inr ⟨h', hax⟩
    · rw [List.orderedInsert, if_neg hab]
      have hba : pidAt s0 b < pidAt s0 a := not_le.mp hab
      refine List.pairwise_cons.mpr ⟨?_, ih a (List.pairwise_cons.mp hpw).2
        (fun x hx => hlt x (List.mem_cons_of_mem b hx))⟩
      intro x hx
      rcases (List.mem_orderedInsert _).mp hx with h | h
      · exact h ▸ Or.inl hba
      · exact hble x h

theorem insertionSort_refLex (s0 : List TPD) :
    ∀ (l : List Nat), l.Pairwise (· < ·) →
      (List.insertionSort (refLe s0) l).Pairwise (refLex s0) := by
  intro l
  induction l with
  | nil => intro _; simp
  | cons a l' ih =>
    intro hpw
    rw [List.insertionSort]
    apply orderedInsert_refLex
    · exact ih (List.pairwise_cons.mp hpw).2
    · intro b hb
      exact (List.pairwise_cons.mp hpw).1 b
        ((List.perm_insertionSort (refLe s0) l').mem_iff.mp hb)

theorem sortedRefs_pairwise (s0 : List TPD) :
    (sortedRefs s0).Pairwise (refLex s0) :=
  insertionSort_refLex s0 _ (List.pairwise_lt_range _)

theorem mem_sortedRefs (s0 : List TPD) (j : Nat) :
    j ∈ sortedRefs s0 ↔ j < s0.length := by
  unfold sortedRefs
  rw [(List.perm_insertionSort (refLe s0) _).mem_iff, List.mem_range]

theorem sumRefs_cons (s0 : List TPD) (p : Int) (i : Nat) (l : List Nat) :
    sumRefs s0 p (i :: l) =
      (if pidAt s0 i = p then qtyAt s0 i else 0) + sumRefs s0 p l := by
  by_cases h : pidAt s0 i = p <;> simp [sumRefs, List.filter_cons, h]

theorem sumRefs_map_succ (a : TPD) (t : List TPD) (p : Int) (l : List Nat) :
    sumRefs (a :: t) p (l.map Nat.succ) = sumRefs t p l := by
  induction l with
  | nil => rfl
  | cons i l' ih =>
    rw [List.map_cons, sumRefs_cons, sumRefs_cons, ih]
    have h1 : pidAt (a :: t) (Nat.succ i) = pidAt t i := rfl
    have h2 : qtyAt (a :: t) (Nat.succ i) = qtyAt t i := rfl
    rw [h1, h2]

theorem sumRefs_range (s0 : List TPD) (p : Int) :
    sumRefs s0 p (List.range s0.length) = totalQty p s0 := by
  induction s0 with
  | nil => rfl
  | cons a t ih =>
    rw [List.length_cons, List.range_succ_eq_map]
    rw [sumRefs_cons, sumRefs_map_succ, ih, totalQty_cons]
    have h1 : pidAt (a :: t) 0 = a.product_id := rfl
    have h2 : qtyAt (a :: t) 0 = a.quantity := rfl
    rw [h1, h2]

theorem sumRefs_complete (s0 : List TPD) (p : Int) (S : List Nat)
    (hnd : S.Nodup) (hlt : ∀ j ∈ S, j < s0.length)
    (hall : ∀ j, j < s0.length → pidAt s0 j = p → j ∈ S) :
    sumRefs s0 p S = totalQty p s0 := by
  rw [← sumRefs_range s0 p]
  have hf1 : (S.filter (fun j => pidAt s0 j = p)).Nodup := hnd.filter _
  have hf2 : ((List.range s0.length).filter (fun j => pidAt s0 j = p)).Nodup :=
    (List.nodup_range _).filter _
  have hsub1 : S.filter (fun j => pidAt s0 j = p) ⊆
      (List.range s0.length).filter (fun j => pidAt s0 j = p) := by
    intro j hj
    have hm := List.mem_filter.mp hj
    exact List.mem_filter.mpr ⟨List.mem_range.mpr (hlt j hm.1), hm.2⟩
  have hsub2 : (List.range s0.length).filter (fun j => pidAt s0 j = p) ⊆
      S.filter (fun j => pidAt s0 j = p) := by
    intro j hj
    have hm := List.mem_filter.mp hj
    exact List.mem_filter.mpr
      ⟨hall j (List.mem_range.mp hm.1) (by simpa using hm.2), hm.2⟩
  have hperm := (hf1.subperm hsub1).perm_of_length_le (hf2.subperm hsub2).length_le
  unfold sumRefs
  exact List.Perm.sum_eq (List.Perm.map _ hperm)

theorem TPD_ext (a b : TPD) (h1 : a.product_id = b.product_id)
    (h2 : a.quantity = b.quantity) : a = b := by
  cases a
  cases b
  simp only at h1 h2
  rw [h1, h2]

theorem sumDupMutGo_cons_mem (store : List TPD) (aa : List Int)
    (c : Nat) (cs : List Nat) (rest : List Nat) (i : Nat)
    (h : (store.getD i default).product_id ∈ aa) :
    sumDupMutGo store aa (c :: cs) (i :: rest) =
      sumDupMutGo (store.set c { store.getD c default with quantity :=
          (store.getD c default).quantity + (store.getD i default).quantity })
        aa (c :: cs) rest := by
  rw [sumDupMutGo.eq_def]
  simp only [if_pos h]

theorem sumDupMutGo_cons_notmem (store : List TPD) (aa : List Int)
    (checkedRev : List Nat) (rest : List Nat) (i : Nat)
    (h : ¬ (store.getD i default).product_id ∈ aa) :
    sumDupMutGo store aa checkedRev (i :: rest) =
      sumDupMutGo store (aa ++ [(store.getD i default).product_id])
        (i :: checkedRev) rest := by
  rw [sumDupMutGo.eq_def]
  simp only [if_neg h]

theorem mutGo_spec (s0 : List TPD) :
    ∀ (rest : List Nat) (store : List TPD) (r : Nat) (rs : List Nat),
    store.length = s0.length →
    (∀ j, ¬ j ∈ (r :: rs) → store.getD j default = s0.getD j default) →
    (∀ j ∈ (r :: rs), store.getD j default =
      { s0.getD j default with
        quantity := totalQty (pidAt s0 j) s0 - sumRefs s0 (pidAt s0 j) rest }) →
    (∀ j ∈ (r :: rs), j < s0.length ∧ firstOccurrence s0 j) →
    (r :: rs).Pairwise (fun a b => pidAt s0 b < pidAt s0 a) →
    (∀ j ∈ (r :: rs), ∀ k ∈ rest, refLex s0 j k) →
    rest.Pairwise (refLex s0) →
    (∀ k ∈ rest, k < s0.length) →
    (∀ j, j < s0.length → firstOccurrence s0 j → ¬ j ∈ (r :: rs) → j ∈ rest) →
    (∀ j, j < s0.length → ¬ j ∈ rest → ¬ j ∈ (r :: rs) → pidAt s0 j ≤ pidAt s0 r) →
    ∀ j, j < s0.length →
      (firstOccurrence s0 j →
        (sumDupMutGo store (((r :: rs).map (pidAt s0)).reverse) (r :: rs)
            rest).1.getD j default =
          { s0.getD j default with quantity := totalQty (pidAt s0 j) s0 }) ∧
      (¬ firstOccurrence s0 j →
        (sumDupMutGo store (((r :: rs).map (pidAt s0)).reverse) (r :: rs)
            rest).1.getD j default = s0.getD j default) := by
  intro rest
  induction rest with
  | nil =>
    intro store r rs hlen ha hb hmemP _hdec _hord _hpw _hklt hcomp _hproc j hj
    constructor
    · intro hfirst
      by_cases hmem : j ∈ r :: rs
      · show store.getD j default = _
        rw [hb j hmem]
        have hz : sumRefs s0 (pidAt s0 j) [] = 0 := rfl
        rw [hz, Int.sub_zero]
      · exact absurd (hcomp j hj hfirst hmem) (by simp)
    · intro hnfirst
      have hmem : ¬ j ∈ r :: rs := fun hm => hnfirst (hmemP j hm).2
      show store.getD j default = _
      exact ha j hmem
  | cons i rest2 ih =>
    intro store r rs hlen ha hb hmemP hdec hord hpw hklt hcomp hproc
    have hiNotC : ¬ i ∈ r :: rs := by
      intro hm
      exact refLex_irrefl s0 i (hord i hm i (by simp))
    have hvi : store.getD i default = s0.getD i default := ha i hiNotC
    have hiLt : i < s0.length := hklt i (by simp)
    have hrLt : r < s0.length := (hmemP r (by simp)).1
    have hRle : ∀ x ∈ r :: rs, pidAt s0 x ≤ pidAt s0 i := by
      intro x hx
      rcases hord x hx i (by simp) with h | h
      · exact le_of_lt h
      · exact le_of_eq h.1
    have hRsLt : ∀ x ∈ rs, pidAt s0 x < pidAt s0 r := (List.pairwise_cons.mp hdec).1
    have hmemIff : pidAt s0 i ∈ ((r :: rs).map (pidAt s0)).reverse ↔
        pidAt s0 i = pidAt s0 r := by
      rw [List.mem_reverse]
      constructor
      · intro hm
        obtain ⟨x, hx, hxp⟩ := List.mem_map.mp hm
        rcases List.mem_cons.mp hx with h | h
        · rw [← hxp, h]
        · exfalso
          have h1 := hRsLt x h
          have h2 := hRle r (by simp)
          omega
      · intro h
        exact List.mem_map.mpr ⟨r, by simp, h.symm⟩
    by_cases hdup : pidAt s0 i = pidAt s0 r
    · -- a further member of the current group: `+=` on the object at r
      have hmem' : (store.getD i default).product_id ∈
          ((r :: rs).map (pidAt s0)).reverse := by
        rw [hvi]
        exact hmemIff.mpr hdup
      rw [sumDupMutGo_cons_mem store _ r rs rest2 i hmem']
      have hSr : sumRefs s0 (pidAt s0 r) (i :: rest2) =
          qtyAt s0 i + sumRefs s0 (pidAt s0 r) rest2 := by
        rw [sumRefs_cons, if_pos hdup]
      apply ih _ r rs
      · rw [List.length_set]; exact hlen
      · intro j hj
        have hjr : ¬ r = j := fun h => hj (h ▸ List.mem_cons_self r rs)
        rw [getD_set_ne store r j _ _ hjr]
        exact ha j hj
      · intro j hj
        rcases List.mem_cons.mp hj with h | h
        · subst h
          rw [getD_set_self store j _ _ (by rw [hlen]; exact hrLt)]
          rw [hb j (by simp)]
          rw [hvi]
          apply TPD_ext
          · rfl
          · show totalQty (pidAt s0 j) s0 - sumRefs s0 (pidAt s0 j) (i :: rest2) +
                qtyAt s0 i =
              totalQty (pidAt s0 j) s0 - sumRefs s0 (pidAt s0 j) rest2
            rw [hSr]
            omega
        · have hjr : ¬ r = j := by
            intro hEq
            exact lt_irrefl _ (hEq ▸ hRsLt j h)
          rw [getD_set_ne store r j _ _ hjr]
          rw [hb j (List.mem_cons_of_mem r h)]
          have hne : ¬ pidAt s0 i = pidAt s0 j := by
            have h1 := hRsLt j h
            omega
          rw [sumRefs_cons, if_neg hne, Int.zero_add]
      · exact hmemP
      · exact hdec
      · intro j hj k hk
        exact hord j hj k (List.mem_cons_of_mem i hk)
      · exact (List.pairwise_cons.mp hpw).2
      · intro k hk
        exact hklt k (List.mem_cons_of_mem i hk)
      · intro j hj hfo hjm
        have hji := hcomp j hj hfo hjm
        rcases List.mem_cons.mp hji with h | h
        · exfalso
          subst h
          have hri : r < j := by
            rcases hord r (by simp) j (by simp) with h' | h'
            · omega
            · exact h'.2
          exact hfo r hri hdup.symm
        · exact h
      · intro j hj hjr2 hjm
        by_cases hji : j = i
        · rw [hji, hdup]
        · have : ¬ j ∈ i :: rest2 := by
            intro hm
            rcases List.mem_cons.mp hm with h | h
            · exact hji h
            · exact hjr2 h
          exact hproc j hj this hjm
    · -- a new group starts at i: push the reference
      have hmemN : ¬ (store.getD i default).product_id ∈
          ((r :: rs).map (pidAt s0)).reverse := by
        rw [hvi]
        exact fun hm => hdup (hmemIff.mp hm)
      rw [sumDupMutGo_cons_notmem store _ (r :: rs) rest2 i hmemN]
      have haa : (((r :: rs).map (pidAt s0)).reverse ++
          [(store.getD i default).product_id]) =
          ((i :: r :: rs).map (pidAt s0)).reverse := by
        rw [hvi]
        simp [pidAt]
      rw [haa]
      have hriLt : pidAt s0 r < pidAt s0 i :=
        lt_of_le_of_ne (hRle r (by simp)) (fun h => hdup h.symm)
      have hPltI : ∀ x ∈ r :: rs, pidAt s0 x < pidAt s0 i := by
        intro x hx
        rcases List.mem_cons.mp hx with h | h
        · exact h ▸ hriLt
        · exact lt_trans (hRsLt x h) hriLt
      have hfirstI : firstOccurrence s0 i := by
        intro j' hj'
        have hj'n : j' < s0.length := lt_trans hj' hiLt
        by_cases hmr : j' ∈ i :: rest2
        · rcases List.mem_cons.mp hmr with h | h
          · omega
          · have := (List.pairwise_cons.mp hpw).1 j' h
            rcases this with h' | h'
            · omega
            · omega
        · by_cases hmc : j' ∈ r :: rs
          · have := hPltI j' hmc
            omega
          · have := hproc j' hj'n hmr hmc
            omega
      apply ih store i (r :: rs) hlen
      · intro j hj
        exact ha j (fun hm => hj (List.mem_cons_of_mem i hm))
      · intro j hj
        rcases List.mem_cons.mp hj with h | h
        · subst h
          rw [hvi]
          have hTi : totalQty (pidAt s0 j) s0 =
              sumRefs s0 (pidAt s0 j) (j :: rest2) := by
            refine (sumRefs_complete s0 _ _ ?_ ?_ ?_).symm
            · exact nodup_of_pairwise_refLex s0 _ hpw
            · intro k hk
              exact hklt k hk
            · intro k hk hkp
              by_cases hmr : k ∈ j :: rest2
              · exact hmr
              · exfalso
                by_cases hmc : k ∈ r :: rs
                · have := hPltI k hmc
                  omega
                · have := hproc k hk hmr hmc
                  omega
          apply TPD_ext
          · rfl
          · show qtyAt s0 j = totalQty (pidAt s0 j) s0 - sumRefs s0 (pidAt s0 j) rest2
            rw [hTi, sumRefs_cons, if_pos rfl]
            omega
        · rw [hb j h]
          have hne : ¬ pidAt s0 i = pidAt s0 j := by
            have := hPltI j h
            omega
          rw [sumRefs_cons, if_neg hne, Int.zero_add]
      · intro j hj
        rcases List.mem_cons.mp hj with h | h
        · exact h ▸ ⟨hiLt, hfirstI⟩
        · exact hmemP j h
      · exact List.pairwise_cons.mpr ⟨hPltI, hdec⟩
      · intro j hj k hk
        rcases List.mem_cons.mp hj with h | h
        · exact h ▸ (List.pairwise_cons.mp hpw).1 k hk
        · exact hord j h k (List.mem_cons_of_mem i hk)
      · exact (List.pairwise_cons.mp hpw).2
      · intro k hk
        exact hklt k (List.mem_cons_of_mem i hk)
      · intro j hj hfo hjm
        have hjm' : ¬ j ∈ r :: rs := fun hm => hjm (List.mem_cons_of_mem i hm)
        have hji : ¬ j = i := fun hEq => hjm (hEq ▸ List.mem_cons_self i (r :: rs))
        have := hcomp j hj hfo hjm'
        rcases List.mem_cons.mp this with h | h
        · exact absurd h hji
        · exact h
      · intro j hj hjr2 hjm
        have hji : ¬ j = i := fun hEq => hjm (hEq ▸ List.mem_cons_self i (r :: rs))
        have hjrest : ¬ j ∈ i :: rest2 := by
          intro hm
          rcases List.mem_cons.mp hm with h | h
          · exact hji h
          · exact hjr2 h
        have hjm' : ¬ j ∈ r :: rs := fun hm => hjm (List.mem_cons_of_mem i hm)
        exact le_trans (hproc j hj hjrest hjm') (le_of_lt hriLt)

theorem mut_final_spec (s0 : List TPD) (j : Nat) (hj : j < s0.length) :
    (firstOccurrence s0 j →
      (sortByIdCheckAndSumDuplicatesMut s0).1.getD j default =
        { s0.getD j default with quantity := totalQty (pidAt s0 j) s0 }) ∧
    (¬ firstOccurrence s0 j →
      (sortByIdCheckAndSumDuplicatesMut s0).1.getD j default =
        s0.getD j default) := by
  unfold sortByIdCheckAndSumDuplicatesMut
  cases hsr : sortedRefs s0 with
  | nil =>
    exfalso
    have hm := (mem_sortedRefs s0 j).mpr hj
    rw [hsr] at hm
    simp at hm
  | cons i0 rest0 =>
    have hpwAll := sortedRefs_pairwise s0
    rw [hsr] at hpwAll
    have hmemAll : ∀ k, k ∈ i0 :: rest0 ↔ k < s0.length := by
      intro k
      rw [← hsr]
      exact mem_sortedRefs s0 k
    have hstep := sumDupMutGo_cons_notmem s0 [] [] rest0 i0 (by simp)
    rw [hstep]
    have haa : ([] : List Int) ++ [(s0.getD i0 default).product_id] =
        ([i0].map (pidAt s0)).reverse := by
      simp [pidAt]
    rw [haa]
    have hi0lt : i0 < s0.length := (hmemAll i0).mp (by simp)
    have hfirstI0 : firstOccurrence s0 i0 := by
      intro j' hj'
      have hj'n : j' < s0.length := lt_trans hj' hi0lt
      have hj'mem := (hmemAll j').mpr hj'n
      rcases List.mem_cons.mp hj'mem with h | h
      · omega
      · intro heq
        rcases (List.pairwise_cons.mp hpwAll).1 j' h with h' | h'
        · omega
        · omega
    apply mutGo_spec s0 rest0 s0 i0 [] rfl (fun _ _ => rfl)
    · intro k hk
      rcases List.mem_cons.mp hk with h | h
      · subst h
        apply TPD_ext
        · rfl
        · show qtyAt s0 k = totalQty (pidAt s0 k) s0 - sumRefs s0 (pidAt s0 k) rest0
          have hT : sumRefs s0 (pidAt s0 k) (k :: rest0) = totalQty (pidAt s0 k) s0 := by
            apply sumRefs_complete
            · exact nodup_of_pairwise_refLex s0 _ hpwAll
            · intro x hx
              exact (hmemAll x).mp hx
            · intro x hx _
              exact (hmemAll x).mpr hx
          rw [← hT, sumRefs_cons, if_pos rfl]
          omega
      · simp at h
    · intro k hk
      rcases List.mem_cons.mp hk with h | h
      · exact h ▸ ⟨hi0lt, hfirstI0⟩
      · simp at h
    · simp
    · intro x hx k hk
      rcases List.mem_cons.mp hx with h | h
      · exact h ▸ (List.pairwise_cons.mp hpwAll).1 k hk
      · simp at h
    · exact (List.pairwise_cons.mp hpwAll).2
    · intro k hk
      exact (hmemAll k).mp (List.mem_cons_of_mem i0 hk)
    · intro x hx _ hxm
      have := (hmemAll x).mpr hx
      rcases List.mem_cons.mp this with h | h
      · exact absurd h (fun hh => hxm (hh ▸ List.mem_cons_self x []))
      · exact h
    · intro x hx hxr hxm
      exfalso
      have := (hmemAll x).mpr hx
      rcases List.mem_cons.mp this with h | h
      · exact hxm (h ▸ List.mem_cons_self i0 [])
      · exact hxr h
    · exact hj

/-- C8: the normalizer mutates the caller's line-item objects in place: in
the final state of the object store, the first-occurrence object of each
product id holds the whole merged quantity (its submitted quantity plus all
later duplicates' quantities), every other object is untouched — so after
normalizing `[(1,3),(1,2)]` the caller's payload reads `[(1,5),(1,2)]` and
no longer records the individually submitted quantity 3. -/
theorem C8_normalizer_mutates_in_place (store : List TPD) (i : Nat)
    (hi : i < store.length) :
    (firstOccurrence store i →
      (sortByIdCheckAndSumDuplicatesMut store).1.getD i default =
        { store.getD i default with
          quantity := totalQty (pidAt store i) store }) ∧
    (¬ firstOccurrence store i →
      (sortByIdCheckAndSumDuplicatesMut store).1.getD i default =
        store.getD i default) ∧
    (sortByIdCheckAndSumDuplicatesMut [⟨1, 3⟩, ⟨1, 2⟩]).1 = [⟨1, 5⟩, ⟨1, 2⟩] := by
  obtain ⟨h1, h2⟩ := mut_final_spec store i hi
  exact ⟨h1, h2, by decide⟩

/-- C8 witness: the first-occurrence object (position 0) of
`[(1,3),(1,2)]` ends up holding quantity 5. -/
theorem C8_normalizer_mutates_in_place_witness :
    (0 : Nat) < ([⟨1, 3⟩, ⟨1, 2⟩] : List TPD).length ∧
    ((firstOccurrence [⟨1, 3⟩, ⟨1, 2⟩] 0 →
      (sortByIdCheckAndSumDuplicatesMut [⟨1, 3⟩, ⟨1, 2⟩]).1.getD 0 default =
        { ([⟨1, 3⟩, ⟨1, 2⟩] : List TPD).getD 0 default with
          quantity := totalQty (pidAt [⟨1, 3⟩, ⟨1, 2⟩] 0) [⟨1, 3⟩, ⟨1, 2⟩] }) ∧
    (¬ firstOccurrence [⟨1, 3⟩, ⟨1, 2⟩] 0 →
      (sortByIdCheckAndSumDuplicatesMut [⟨1, 3⟩, ⟨1, 2⟩]).1.getD 0 default =
        ([⟨1, 3⟩, ⟨1, 2⟩] : List TPD).getD 0 default) ∧
    (sortByIdCheckAndSumDuplicatesMut [⟨1, 3⟩, ⟨1, 2⟩]).1 = [⟨1, 5⟩, ⟨1, 2⟩]) :=
  ⟨by decide, C8_normalizer_mutates_in_place [⟨1, 3⟩, ⟨1, 2⟩] 0 (by decide)⟩

/-- C9 witness: concrete instance — empty storage, page 1, 20 per page. -/
theorem C9_zero_matches_not_found_error_witness :
    makeTransactionQueryWithFilters dbEmpty "" "" "" .emptyVal .nullVal .nullVal =
      Except.ok [] ∧
    fetchAllWithPagination dbEmpty 1 20 "" "" "" .emptyVal .nullVal .nullVal =
      Except.error (ServiceError.ItensNotFoundMsg "No transactions found") :=
  ⟨by decide,
    C9_zero_matches_not_found_error dbEmpty 1 20 "" "" "" .emptyVal .nullVal
      .nullVal (by decide) (by decide) (by decide)⟩

end SBF
